import Mathlib

/-!
Verification development for the NSD core sources: the name database
(`namedb.c`), NSEC3 cover lookup (`nsec3.c`), the XFR coordinator
(`xfrd.c`), the remote control channel (`remote.c`) and the resolver
(`query.c`).

Domain names are embedded as lists of labels in *reversed* (root-first)
order, so that a DNS suffix -- an ancestor -- is a list *prefix*, and
canonical DNS order (compare labels from the root side) is lexicographic
order on these lists.  Labels are abstracted as naturals: the claims under
study depend only on the linear order of labels, never on the bytes
inside one label.
-/

namespace NsdModel

/-- A label, abstracted: claims depend only on the label order. -/
abbrev Lab := Nat

/-- A domain name: list of labels in reversed (root-first) order.
The root is `[]`.  A DNS "suffix by labels" of `q` is a list prefix. -/
abbrev Dname := List Lab

/-- Canonical DNS less-or-equal on names: lexicographic on the
root-first label lists (this is the order `radname` keys induce). -/
def dnameLe : Dname → Dname → Bool
  | [], _ => true
  | _ :: _, [] => false
  | a :: as, b :: bs =>
    if a < b then true
    else if b < a then false
    else dnameLe as bs

/-- Strict canonical order. -/
def dnameLt (a b : Dname) : Bool := !(dnameLe b a)

theorem dnameLe_refl (a : Dname) : dnameLe a a = true := by
  induction a with
  | nil => rfl
  | cons x xs ih => simp [dnameLe, ih]

theorem dnameLe_total (a b : Dname) : dnameLe a b = true ∨ dnameLe b a = true := by
  induction a generalizing b with
  | nil => left; rfl
  | cons x xs ih =>
    cases b with
    | nil => right; rfl
    | cons y ys =>
      rcases Nat.lt_trichotomy x y with h | h | h
      · left; simp [dnameLe, h]
      · subst h
        rcases ih ys with h2 | h2
        · left; simp [dnameLe, h2]
        · right; simp [dnameLe, h2]
      · right; simp [dnameLe, h]

theorem dnameLe_antisymm {a b : Dname} (h1 : dnameLe a b = true)
    (h2 : dnameLe b a = true) : a = b := by
  induction a generalizing b with
  | nil =>
    cases b with
    | nil => rfl
    | cons y ys => simp [dnameLe] at h2
  | cons x xs ih =>
    cases b with
    | nil => simp [dnameLe] at h1
    | cons y ys =>
      rcases Nat.lt_trichotomy x y with h | h | h
      · simp [dnameLe, h, Nat.not_lt.mpr (Nat.le_of_lt h), Nat.lt_asymm h] at h2
      · subst h
        simp only [dnameLe, Nat.lt_irrefl, if_false] at h1 h2
        exact congrArg (x :: ·) (ih h1 h2)
      · simp [dnameLe, h, Nat.not_lt.mpr (Nat.le_of_lt h), Nat.lt_asymm h] at h1

theorem dnameLe_trans {a b c : Dname} (h1 : dnameLe a b = true)
    (h2 : dnameLe b c = true) : dnameLe a c = true := by
  induction a generalizing b c with
  | nil => rfl
  | cons x xs ih =>
    cases b with
    | nil => simp [dnameLe] at h1
    | cons y ys =>
      cases c with
      | nil => simp [dnameLe] at h2
      | cons z zs =>
        simp only [dnameLe] at h1 h2 ⊢
        rcases Nat.lt_trichotomy x y with hxy | hxy | hxy
        · rcases Nat.lt_trichotomy y z with hyz | hyz | hyz
          · simp [Nat.lt_trans hxy hyz]
          · subst hyz; simp [hxy]
          · simp [hyz, Nat.not_lt.mpr (Nat.le_of_lt hyz), Nat.lt_asymm hyz] at h2
        · subst hxy
          rcases Nat.lt_trichotomy x z with hyz | hyz | hyz
          · simp [hyz]
          · subst hyz
            simp only [Nat.lt_irrefl, if_false] at h1 h2 ⊢
            exact ih h1 h2
          · simp [hyz, Nat.not_lt.mpr (Nat.le_of_lt hyz), Nat.lt_asymm hyz] at h2
        · simp [hxy, Nat.not_lt.mpr (Nat.le_of_lt hxy), Nat.lt_asymm hxy] at h1

theorem dnameLt_iff {a b : Dname} :
    dnameLt a b = true ↔ dnameLe a b = true ∧ a ≠ b := by
  constructor
  · intro h
    have hle : dnameLe b a = false := by
      simpa [dnameLt] using h
    rcases dnameLe_total a b with h2 | h2
    · refine ⟨h2, ?_⟩
      rintro rfl
      rw [dnameLe_refl] at hle
      cases hle
    · rw [h2] at hle; cases hle
  · rintro ⟨h1, h2⟩
    have : dnameLe b a = false := by
      cases hba : dnameLe b a
      · rfl
      · exact absurd (dnameLe_antisymm h1 hba) h2
    simp [dnameLt, this]

theorem dnameLt_of_le_ne {a b : Dname} (h1 : dnameLe a b = true) (h2 : a ≠ b) :
    dnameLt a b = true := dnameLt_iff.mpr ⟨h1, h2⟩

theorem dnameLe_of_lt {a b : Dname} (h : dnameLt a b = true) : dnameLe a b = true :=
  (dnameLt_iff.mp h).1

theorem dnameLt_asymm {a b : Dname} (h : dnameLt a b = true) :
    dnameLt b a = false := by
  rcases dnameLt_iff.mp h with ⟨h1, h2⟩
  cases hba : dnameLt b a
  · rfl
  · exact absurd (dnameLe_antisymm h1 (dnameLe_of_lt hba)) h2

/-- A list-prefix (DNS ancestor) is canonically less-or-equal. -/
theorem ancestor_dnameLe {a b : Dname} (h : a <+: b) : dnameLe a b = true := by
  induction a generalizing b with
  | nil => rfl
  | cons x xs ih =>
    cases b with
    | nil => exact absurd (List.eq_nil_of_prefix_nil h) (by simp)
    | cons y ys =>
      rcases (List.cons_prefix_cons.mp h) with ⟨rfl, htl⟩
      simp [dnameLe, ih htl]

/-- Betweenness: anything canonically between an ancestor of `q` and `q`
itself lies under that ancestor.  This is why a zone's names form one
contiguous canonical interval. -/
theorem prefix_of_between {x y q : Dname} (hpre : x <+: q)
    (h1 : dnameLe x y = true) (h2 : dnameLe y q = true) : x <+: y := by
  induction x generalizing y q with
  | nil => exact List.nil_prefix
  | cons c xs ih =>
    cases q with
    | nil => exact absurd (List.eq_nil_of_prefix_nil hpre) (by simp)
    | cons cq qs =>
      rcases (List.cons_prefix_cons.mp hpre) with ⟨rfl, hq⟩
      cases y with
      | nil => simp [dnameLe] at h1
      | cons d ys =>
        simp only [dnameLe] at h1 h2
        rcases Nat.lt_trichotomy c d with hcd | hcd | hcd
        · -- then y > q at the first label, contradiction with y ≤ q
          simp [hcd, Nat.not_lt.mpr (Nat.le_of_lt hcd), Nat.lt_asymm hcd] at h2
        · subst hcd
          simp only [Nat.lt_irrefl, if_false] at h1 h2
          exact List.cons_prefix_cons.mpr ⟨rfl, ih hq h1 h2⟩
        · simp [hcd, Nat.not_lt.mpr (Nat.le_of_lt hcd), Nat.lt_asymm hcd] at h1

section FindLessEqual

variable {α : Type} (key : α → Dname)

/-- Modelled from the spec: `radname_find_less_equal` ("predecessor-lookup
in the ordered tree"; the radix tree sources are not under src/).  On the
canonically sorted list of tree entries it returns the greatest entry with
key ≤ `q`, or nothing when every entry is above `q`. -/
def findLessEqual (T : List α) (q : Dname) : Option α :=
  (T.takeWhile fun d => dnameLe (key d) q).getLast?

/-- The tree's entries listed in strictly ascending canonical order. -/
def SortedT (T : List α) : Prop :=
  List.Pairwise (fun a b => dnameLt (key a) (key b) = true) T

theorem mem_takeWhile_and {p : α → Bool} {l : List α} :
    ∀ a ∈ l.takeWhile p, a ∈ l ∧ p a = true := by
  induction l with
  | nil => intro a h; simp [List.takeWhile] at h
  | cons x xs ih =>
    intro a h
    by_cases hx : p x = true
    · rw [List.takeWhile_cons, if_pos hx] at h
      rcases List.mem_cons.mp h with rfl | h2
      · exact ⟨List.mem_cons_self _ _, hx⟩
      · rcases ih a h2 with ⟨h3, h4⟩
        exact ⟨List.mem_cons_of_mem _ h3, h4⟩
    · rw [List.takeWhile_cons, if_neg hx] at h
      simp at h

theorem mem_takeWhile_le {T : List α} {q : Dname} (hs : SortedT key T) {d : α}
    (hd : d ∈ T) (hle : dnameLe (key d) q = true) :
    d ∈ T.takeWhile fun e => dnameLe (key e) q := by
  induction T with
  | nil => simp at hd
  | cons x xs ih =>
    rcases List.mem_cons.mp hd with rfl | h2
    · rw [List.takeWhile_cons, if_pos hle]
      exact List.mem_cons_self _ _
    · have hxd : dnameLt (key x) (key d) = true :=
        (List.pairwise_cons.mp hs).1 d h2
      have hxq : dnameLe (key x) q = true :=
        dnameLe_trans (dnameLe_of_lt hxd) hle
      rw [List.takeWhile_cons, if_pos hxq]
      exact List.mem_cons_of_mem _ (ih (List.pairwise_cons.mp hs).2 h2)

theorem getLast?_max_of_sorted {T : List α} (hs : SortedT key T) {m : α}
    (hm : T.getLast? = some m) : ∀ d ∈ T, dnameLe (key d) (key m) = true := by
  induction T with
  | nil => simp at hm
  | cons x xs ih =>
    intro d hd
    cases xs with
    | nil =>
      simp at hm hd
      subst hm; subst hd
      exact dnameLe_refl _
    | cons y ys =>
      rw [List.getLast?_cons_cons] at hm
      have hm_mem : m ∈ y :: ys := by
        have := List.mem_of_mem_getLast? (l := y :: ys) hm
        exact this
      rcases List.mem_cons.mp hd with rfl | h2
      · exact dnameLe_of_lt ((List.pairwise_cons.mp hs).1 m hm_mem)
      · exact ih (List.pairwise_cons.mp hs).2 hm d h2

theorem findLessEqual_spec {T : List α} {q : Dname} (hs : SortedT key T) :
    (∀ m, findLessEqual key T q = some m →
      m ∈ T ∧ dnameLe (key m) q = true ∧
      ∀ d ∈ T, dnameLe (key d) q = true → dnameLe (key d) (key m) = true) ∧
    (findLessEqual key T q = none →
      ∀ d ∈ T, dnameLe (key d) q = false) := by
  constructor
  · intro m hm
    unfold findLessEqual at hm
    have hmem := List.mem_of_mem_getLast? hm
    rcases mem_takeWhile_and _ hmem with ⟨hmT, hmq⟩
    refine ⟨hmT, hmq, ?_⟩
    intro d hd hdq
    have hsub : (T.takeWhile fun e => dnameLe (key e) q).Sublist T :=
      List.takeWhile_sublist _
    have hsort' : SortedT key (T.takeWhile fun e => dnameLe (key e) q) :=
      List.Pairwise.sublist hsub hs
    exact getLast?_max_of_sorted key hsort' hm d (mem_takeWhile_le key hs hd hdq)
  · intro hnone d hd
    cases hdq : dnameLe (key d) q
    · rfl
    · have : d ∈ T.takeWhile fun e => dnameLe (key e) q :=
        mem_takeWhile_le key hs hd hdq
      have hne : (T.takeWhile fun e => dnameLe (key e) q) ≠ [] := by
        intro h; rw [h] at this; simp at this
      unfold findLessEqual at hnone
      rw [List.getLast?_eq_none_iff] at hnone
      exact absurd hnone hne

end FindLessEqual

/-- Modelled from the spec: `dname_label_match_count` (dname.c is not under
src/), "the longest common suffix of the query and the predecessor's name":
number of labels shared from the root side. -/
def labelMatchCount : Dname → Dname → Nat
  | a :: as, b :: bs => if a = b then labelMatchCount as bs + 1 else 0
  | _, _ => 0

theorem labelMatchCount_le_left (a b : Dname) :
    labelMatchCount a b ≤ a.length := by
  induction a generalizing b with
  | nil => cases b <;> simp [labelMatchCount]
  | cons x xs ih =>
    cases b with
    | nil => simp [labelMatchCount]
    | cons y ys =>
      by_cases h : x = y
      · subst h
        simpa [labelMatchCount] using ih ys
      · simp [labelMatchCount, h]

theorem labelMatchCount_le_right (a b : Dname) :
    labelMatchCount a b ≤ b.length := by
  induction a generalizing b with
  | nil => cases b <;> simp [labelMatchCount]
  | cons x xs ih =>
    cases b with
    | nil => simp [labelMatchCount]
    | cons y ys =>
      by_cases h : x = y
      · subst h
        simpa [labelMatchCount] using ih ys
      · simp [labelMatchCount, h]

theorem take_labelMatchCount_eq (a b : Dname) :
    a.take (labelMatchCount a b) = b.take (labelMatchCount a b) := by
  induction a generalizing b with
  | nil => cases b <;> simp [labelMatchCount]
  | cons x xs ih =>
    cases b with
    | nil => simp [labelMatchCount]
    | cons y ys =>
      by_cases h : x = y
      · subst h
        simp [labelMatchCount, ih ys]
      · simp [labelMatchCount, h]

theorem common_ancestor_labelMatchCount {x a b : Dname}
    (ha : x <+: a) (hb : x <+: b) : x.length ≤ labelMatchCount a b := by
  induction x generalizing a b with
  | nil => simp
  | cons c cs ih =>
    cases a with
    | nil => exact absurd (List.eq_nil_of_prefix_nil ha) (by simp)
    | cons a0 as =>
      cases b with
      | nil => exact absurd (List.eq_nil_of_prefix_nil hb) (by simp)
      | cons b0 bs =>
        rcases List.cons_prefix_cons.mp ha with ⟨rfl, ha'⟩
        rcases List.cons_prefix_cons.mp hb with ⟨rfl, hb'⟩
        simpa [labelMatchCount] using ih ha' hb'

/-- The parent-pointer walk of `domain_table_search`: follow `parent`
(drop the leaf-most label) until at most `k` labels remain.  An explicit
fuel (one unit per parent step, the name length suffices) keeps the
recursion structural. -/
def parentWalkFuel : Nat → Nat → Dname → Dname
  | 0, _, x => x
  | fuel + 1, k, x =>
    if x.length ≤ k then x else parentWalkFuel fuel k x.dropLast

/-- The parent-pointer walk of `domain_table_search`, entry point. -/
def parentWalk (k : Nat) (x : Dname) : Dname := parentWalkFuel x.length k x

theorem parentWalkFuel_eq_take :
    ∀ (fuel k : Nat) (x : Dname), x.length ≤ fuel → k ≤ x.length →
      parentWalkFuel fuel k x = x.take k := by
  intro fuel
  induction fuel with
  | zero =>
    intro k x hf hk
    have hx : x = [] := List.eq_nil_of_length_eq_zero (Nat.le_zero.mp hf)
    subst hx
    simp at hk
    subst hk
    rfl
  | succ f ih =>
    intro k x hf hk
    rw [parentWalkFuel]
    by_cases h : x.length ≤ k
    · have : k = x.length := Nat.le_antisymm hk h
      subst this
      simp [h, List.take_length]
    · rw [if_neg h]
      have hlen : x.dropLast.length = x.length - 1 := by simp
      rw [ih k x.dropLast (by omega) (by omega)]
      rw [List.dropLast_eq_take, List.take_take]
      congr 1
      omega

theorem parentWalk_eq_take :
    ∀ (n : Nat) (x : Dname), x.length = n → ∀ k, k ≤ x.length →
      parentWalk k x = x.take k := by
  intro n x hx k hk
  exact parentWalkFuel_eq_take x.length k x (Nat.le_refl _) hk

/-- The per-domain parent closure of the table: every domain's parent is
also in the table (the tree stores all ancestors). -/
def suffixClosed (T : List Dname) : Prop := ∀ x ∈ T, x.dropLast ∈ T

theorem take_mem_of_suffixClosed {T : List Dname} (hc : suffixClosed T) :
    ∀ (n : Nat) (x : Dname), x.length = n → x ∈ T → ∀ k, x.take k ∈ T := by
  intro n
  induction n with
  | zero =>
    intro x hx hmem k
    have : x = [] := List.eq_nil_of_length_eq_zero hx
    subst this
    simpa using hmem
  | succ n ih =>
    intro x hx hmem k
    by_cases h : x.length ≤ k
    · rw [List.take_of_length_le h]; exact hmem
    · have hlen : x.dropLast.length = n := by
        simp [List.length_dropLast, hx]
      have : x.take k = x.dropLast.take k := by
        rw [List.dropLast_eq_take, List.take_take]
        congr 1
        omega
      rw [this]
      exact ih x.dropLast hlen (hc x hmem) k

/-- Result triple of `domain_table_search`. -/
structure SearchResult where
  exact : Bool
  closest_match : Dname
  closest_encloser : Dname
deriving DecidableEq

/-- `domain_table_search` (namedb.c): predecessor lookup, then, when the
match is not exact, walk `closest_encloser` up the parent chain until its
label count no longer exceeds the label match count with the query.
Returns `none` only when even the root is absent (the C code asserts the
closest match is non-null). -/
def domain_table_search (T : List Dname) (q : Dname) : Option SearchResult :=
  match findLessEqual id T q with
  | none => none
  | some cm =>
    if cm = q then some ⟨true, cm, cm⟩
    else some ⟨false, cm, parentWalk (labelMatchCount cm q) cm⟩

theorem dnameLe_nil (q : Dname) : dnameLe [] q = true := rfl

/-- A domain as the NSEC3 cover search sees it: its name and whether
`domain_find_rrset(domain, zone, TYPE_NSEC3)` finds an NSEC3 RRset of the
zone at it. -/
structure DomainC where
  dname : Dname
  hasNSEC3 : Bool
deriving DecidableEq

/-- `dname_is_subdomain(d, apex)`: apex is an ancestor of d (or d itself). -/
def isSub (d apex : Dname) : Bool := apex.isPrefixOf d

/-- The backward walk of `nsec3_find_cover` (nsec3.c): starting from the
closest match and stepping to `domain_previous`, keep walking while the
domain stays inside the zone and carries no NSEC3 RRset.  The input list
is the table entries at and before the closest match, in descending
canonical order. -/
def coverWalk (apex : Dname) : List DomainC → Option DomainC
  | [] => none
  | d :: rest =>
    if isSub d.dname apex then
      if d.hasNSEC3 then some d else coverWalk apex rest
    else none

/-- `nsec3_find_cover` (nsec3.c): predecessor search for the hashed name,
exact hit owning an NSEC3 RRset returns 1; otherwise walk backwards to the
nearest in-zone NSEC3 owner, wrapping to `zone->nsec3_last` when the walk
leaves the zone without finding one. -/
def nsec3_find_cover (T : List DomainC) (apex : Dname) (last : Option DomainC)
    (q : Dname) : Bool × Option DomainC :=
  match (T.takeWhile fun d => dnameLe d.dname q).reverse with
  | [] => (false, last)
  | cm :: rest =>
    if cm.dname = q ∧ cm.hasNSEC3 = true then (true, some cm)
    else
      match coverWalk apex (cm :: rest) with
      | some d => (false, some d)
      | none => (false, last)

/-- `d` is the canonical predecessor of `q` inside the zone that owns an
NSEC3 RRset: greatest table entry ≤ q under the apex carrying NSEC3. -/
def coversPred (T : List DomainC) (apex q : Dname) (d : DomainC) : Prop :=
  d ∈ T ∧ dnameLe d.dname q = true ∧ isSub d.dname apex = true ∧
  d.hasNSEC3 = true ∧
  ∀ e ∈ T, dnameLe e.dname q = true → isSub e.dname apex = true →
    e.hasNSEC3 = true → dnameLe e.dname d.dname = true

/-- No table entry ≤ q inside the zone owns an NSEC3 RRset. -/
def noCoverBelow (T : List DomainC) (apex q : Dname) : Prop :=
  ∀ e ∈ T, dnameLe e.dname q = true → isSub e.dname apex = true →
    e.hasNSEC3 = false

theorem coverWalk_some {apex : Dname} {lst : List DomainC} {d : DomainC}
    (h : coverWalk apex lst = some d) :
    ∃ pre post, lst = pre ++ d :: post ∧
      (∀ e ∈ pre, isSub e.dname apex = true ∧ e.hasNSEC3 = false) ∧
      isSub d.dname apex = true ∧ d.hasNSEC3 = true := by
  induction lst with
  | nil => simp [coverWalk] at h
  | cons x rest ih =>
    by_cases hsub : isSub x.dname apex = true
    · by_cases hhas : x.hasNSEC3 = true
      · rw [coverWalk, if_pos hsub, if_pos hhas] at h
        obtain rfl : x = d := by injection h
        exact ⟨[], rest, rfl, by simp, hsub, hhas⟩
      · rw [coverWalk, if_pos hsub, if_neg hhas] at h
        obtain ⟨pre, post, heq, hpre, hd1, hd2⟩ := ih h
        refine ⟨x :: pre, post, by rw [heq]; rfl, ?_, hd1, hd2⟩
        intro e he
        rcases List.mem_cons.mp he with rfl | he2
        · exact ⟨hsub, by simpa using hhas⟩
        · exact hpre e he2
    · rw [coverWalk, if_neg hsub] at h
      cases h

theorem coverWalk_none {apex : Dname} {lst : List DomainC}
    (h : coverWalk apex lst = none) :
    (∀ e ∈ lst, isSub e.dname apex = true ∧ e.hasNSEC3 = false) ∨
    (∃ pre x post, lst = pre ++ x :: post ∧
      (∀ e ∈ pre, isSub e.dname apex = true ∧ e.hasNSEC3 = false) ∧
      isSub x.dname apex = false) := by
  induction lst with
  | nil => left; simp
  | cons x rest ih =>
    by_cases hsub : isSub x.dname apex = true
    · by_cases hhas : x.hasNSEC3 = true
      · rw [coverWalk, if_pos hsub, if_pos hhas] at h
        cases h
      · rw [coverWalk, if_pos hsub, if_neg hhas] at h
        rcases ih h with h1 | ⟨pre, y, post, heq, hpre, hy⟩
        · left
          intro e he
          rcases List.mem_cons.mp he with rfl | he2
          · exact ⟨hsub, by simpa using hhas⟩
          · exact h1 e he2
        · right
          refine ⟨x :: pre, y, post, by rw [heq]; rfl, ?_, hy⟩
          intro e he
          rcases List.mem_cons.mp he with rfl | he2
          · exact ⟨hsub, by simpa using hhas⟩
          · exact hpre e he2
    · right
      exact ⟨[], x, rest, rfl, by simp, by simpa using hsub⟩

end NsdModel

namespace NsdModel

open List in
/-- C1: for every name Q and every domain table T that contains the root
(and, as the tree guarantees, every ancestor of its entries),
`domain_table_search` returns a non-null closest encloser that is the
longest suffix (list prefix in the root-first encoding) of Q present in T,
and `exact = true` iff Q itself is in T, in which case the closest
encloser is Q's own domain. -/
theorem domain_table_search_correct (T : List Dname) (q : Dname)
    (hsort : SortedT id T) (hclosed : suffixClosed T) (hroot : [] ∈ T) :
    ∃ r, domain_table_search T q = some r ∧
      r.closest_encloser ∈ T ∧
      r.closest_encloser <+: q ∧
      (∀ x ∈ T, x <+: q → x.length ≤ r.closest_encloser.length) ∧
      (r.exact = true ↔ q ∈ T) ∧
      (r.exact = true → r.closest_encloser = q) := by
  have hrootq : [] ∈ T.takeWhile fun e => dnameLe (id e) q :=
    mem_takeWhile_le id hsort hroot (dnameLe_nil q)
  have hne : (T.takeWhile fun e => dnameLe (id e) q) ≠ [] := by
    intro h; rw [h] at hrootq; simp at hrootq
  obtain ⟨cm, hcm⟩ : ∃ cm, findLessEqual id T q = some cm := by
    unfold findLessEqual
    cases hl : (T.takeWhile fun e => dnameLe (id e) q).getLast? with
    | none => exact absurd (List.getLast?_eq_none_iff.mp hl) hne
    | some m => exact ⟨m, rfl⟩
  obtain ⟨hcmT, hcmle, hcmmax⟩ := (findLessEqual_spec id hsort).1 cm hcm
  by_cases hex : cm = q
  · subst hex
    refine ⟨⟨true, cm, cm⟩, ?_, hcmT, List.prefix_refl cm, ?_, ?_, fun _ => rfl⟩
    · unfold domain_table_search
      rw [hcm]
      simp
    · intro x hx hpre
      exact hpre.length_le
    · simp [hcmT]
  · have hqnotin : q ∉ T := by
      intro hq
      have h1 : dnameLe (id q) q = true := dnameLe_refl q
      have h2 : dnameLe (id q) (id cm) = true := hcmmax q hq h1
      exact hex (dnameLe_antisymm hcmle h2)
    have hk : labelMatchCount cm q ≤ cm.length := labelMatchCount_le_left cm q
    have hwalk : parentWalk (labelMatchCount cm q) cm =
        cm.take (labelMatchCount cm q) :=
      parentWalk_eq_take cm.length cm rfl _ hk
    refine ⟨⟨false, cm, parentWalk (labelMatchCount cm q) cm⟩, ?_, ?_, ?_, ?_, ?_, ?_⟩
    · unfold domain_table_search
      rw [hcm]
      simp [hex]
    · rw [hwalk]
      exact take_mem_of_suffixClosed hclosed cm.length cm rfl hcmT _
    · rw [hwalk, take_labelMatchCount_eq]
      exact List.take_prefix _ q
    · intro x hx hpre
      have hxle : dnameLe (id x) q = true := ancestor_dnameLe hpre
      have hxcm : dnameLe x cm = true := hcmmax x hx hxle
      have hxpre : x <+: cm := prefix_of_between hpre hxcm hcmle
      have hlen : x.length ≤ labelMatchCount cm q :=
        common_ancestor_labelMatchCount hxpre hpre
      rw [hwalk, List.length_take]
      omega
    · simp [hqnotin]
    · intro h; cases h

/-- Witness for C1 at a concrete table and query: the table
`{root, [1], [1,2]}` and the query name `[1,2,3]` whose longest present
suffix is `[1,2]`. -/
theorem domain_table_search_correct_witness :
    ∃ r, domain_table_search [[], [1], [1, 2]] [1, 2, 3] = some r ∧
      r.closest_encloser ∈ [[], [1], [1, 2]] ∧
      r.closest_encloser <+: [1, 2, 3] ∧
      (∀ x ∈ [[], [1], [1, 2]], x <+: [1, 2, 3] →
        x.length ≤ r.closest_encloser.length) ∧
      (r.exact = true ↔ [1, 2, 3] ∈ [[], [1], [1, 2]]) ∧
      (r.exact = true → r.closest_encloser = [1, 2, 3]) :=
  domain_table_search_correct [[], [1], [1, 2]] [1, 2, 3]
    (by unfold SortedT; decide) (by unfold suffixClosed; decide) (by decide)

/-- C2: for a signed zone (non-null `nsec3_rrset`/`nsec3_last`, the latter
passed as `L`) and a hashed name `q` (hashed owner names always end in the
zone apex), `nsec3_find_cover` yields a non-null result that either is the
exact domain owning `q` with an NSEC3 RRset (returning 1/true), or is the
greatest in-zone canonical predecessor owning an NSEC3 RRset (returning
0/false), wrapping to `zone->nsec3_last` when no such predecessor exists. -/
theorem nsec3_find_cover_correct (T : List DomainC) (apex q : Dname)
    (L d0 : DomainC) (hs : SortedT DomainC.dname T) (hd0 : d0 ∈ T)
    (hd0n : d0.dname = []) (hq : apex <+: q) :
    ∃ d, (nsec3_find_cover T apex (some L) q).2 = some d ∧
      (((nsec3_find_cover T apex (some L) q).1 = true ∧
          d ∈ T ∧ d.dname = q ∧ d.hasNSEC3 = true) ∨
       ((nsec3_find_cover T apex (some L) q).1 = false ∧
          (coversPred T apex q d ∨ (noCoverBelow T apex q ∧ d = L)))) := by
  have hd0le : dnameLe (DomainC.dname d0) q = true := by
    rw [hd0n]; exact dnameLe_nil q
  have hd0below : d0 ∈ T.takeWhile fun e => dnameLe e.dname q :=
    mem_takeWhile_le DomainC.dname hs hd0 hd0le
  have hbsort : List.Pairwise (fun a b => dnameLt a.dname b.dname = true)
      (T.takeWhile fun e => dnameLe e.dname q) :=
    List.Pairwise.sublist (List.takeWhile_sublist _) hs
  cases hrev : (T.takeWhile fun e => dnameLe e.dname q).reverse with
  | nil =>
    rw [List.reverse_eq_nil_iff] at hrev
    rw [hrev] at hd0below
    simp at hd0below
  | cons cm rest =>
    have hmem_lst : ∀ e, e ∈ cm :: rest ↔
        e ∈ T.takeWhile fun x => dnameLe x.dname q := by
      intro e
      rw [← hrev, List.mem_reverse]
    have hmemT : ∀ e ∈ cm :: rest, e ∈ T ∧ dnameLe e.dname q = true := by
      intro e he
      exact mem_takeWhile_and _ ((hmem_lst e).mp he)
    have hmemB : ∀ e ∈ T, dnameLe e.dname q = true → e ∈ cm :: rest := by
      intro e he hle
      exact (hmem_lst e).mpr (mem_takeWhile_le DomainC.dname hs he hle)
    have hdesc : List.Pairwise (fun a b => dnameLt b.dname a.dname = true)
        (cm :: rest) := by
      rw [← hrev]
      exact List.pairwise_reverse.mpr hbsort
    by_cases hex : cm.dname = q ∧ cm.hasNSEC3 = true
    · refine ⟨cm, ?_, Or.inl ⟨?_, (hmemT cm (List.mem_cons_self _ _)).1,
        hex.1, hex.2⟩⟩
      · unfold nsec3_find_cover
        rw [hrev]
        dsimp only
        rw [if_pos hex]
      · unfold nsec3_find_cover
        rw [hrev]
        dsimp only
        rw [if_pos hex]
    · cases hcw : coverWalk apex (cm :: rest) with
      | some d =>
        obtain ⟨pre, post, heq, hpre, hdsub, hdhas⟩ := coverWalk_some hcw
        have hres : nsec3_find_cover T apex (some L) q = (false, some d) := by
          unfold nsec3_find_cover
          rw [hrev]
          dsimp only
          rw [if_neg hex, hcw]
        have hdlst : d ∈ cm :: rest := by
          rw [heq]
          exact List.mem_append_right _ (List.mem_cons_self _ _)
        refine ⟨d, by rw [hres], Or.inr ⟨by rw [hres], Or.inl
          ⟨(hmemT d hdlst).1, (hmemT d hdlst).2, hdsub, hdhas, ?_⟩⟩⟩
        intro e heT hele hesub hehas
        have helst : e ∈ pre ++ d :: post := heq ▸ hmemB e heT hele
        rcases List.mem_append.mp helst with hepre | hedpost
        · exact absurd hehas (by simp [(hpre e hepre).2])
        · rcases List.mem_cons.mp hedpost with rfl | hepost
          · exact dnameLe_refl _
          · have hdesc' : List.Pairwise (fun a b => dnameLt b.dname a.dname = true)
                (pre ++ d :: post) := heq ▸ hdesc
            have hrel := ((List.pairwise_append.mp hdesc').2.1)
            exact dnameLe_of_lt ((List.pairwise_cons.mp hrel).1 e hepost)
      | none =>
        have hres : nsec3_find_cover T apex (some L) q = (false, some L) := by
          unfold nsec3_find_cover
          rw [hrev]
          dsimp only
          rw [if_neg hex, hcw]
        refine ⟨L, by rw [hres], Or.inr ⟨by rw [hres], Or.inr ⟨?_, rfl⟩⟩⟩
        intro e heT hele hesub
        have helst : e ∈ cm :: rest := hmemB e heT hele
        rcases coverWalk_none hcw with hall | ⟨pre, x, post, heq, hpre, hxsub⟩
        · exact (hall e helst).2
        · have helst' : e ∈ pre ++ x :: post := heq ▸ helst
          rcases List.mem_append.mp helst' with hepre | hexpost
          · exact (hpre e hepre).2
          · rcases List.mem_cons.mp hexpost with rfl | hepost
            · rw [hesub] at hxsub; cases hxsub
            · exfalso
              have hxlst : x ∈ cm :: rest := by
                rw [heq]
                exact List.mem_append_right _ (List.mem_cons_self _ _)
              have hxle : dnameLe x.dname q = true := (hmemT x hxlst).2
              have hdesc' : List.Pairwise
                  (fun a b => dnameLt b.dname a.dname = true)
                  (pre ++ x :: post) := heq ▸ hdesc
              have hrel := ((List.pairwise_append.mp hdesc').2.1)
              have hex2 : dnameLe e.dname x.dname = true :=
                dnameLe_of_lt ((List.pairwise_cons.mp hrel).1 e hepost)
              have hesub' : apex <+: e.dname := by
                rw [isSub, List.isPrefixOf_iff_prefix] at hesub
                exact hesub
              have hax : dnameLe apex x.dname = true :=
                dnameLe_trans (ancestor_dnameLe hesub') hex2
              have hxpre : apex <+: x.dname := prefix_of_between hq hax hxle
              have hxsub' : apex.isPrefixOf x.dname = false := hxsub
              rw [ List.isPrefixOf_iff_prefix.mpr hxpre] at hxsub'
              cases hxsub'

/-- Witness for C2: a concrete signed zone with apex `[5]`; the query
hash `[5,3]` exists in the table without an NSEC3 RRset, so the cover is
the in-zone predecessor `[5,1]` that owns one. -/
theorem nsec3_find_cover_correct_witness :
    ∃ d, (nsec3_find_cover
        [⟨[], false⟩, ⟨[5], true⟩, ⟨[5, 1], true⟩, ⟨[5, 3], false⟩]
        [5] (some ⟨[5, 1], true⟩) [5, 3]).2 = some d ∧
      (((nsec3_find_cover
          [⟨[], false⟩, ⟨[5], true⟩, ⟨[5, 1], true⟩, ⟨[5, 3], false⟩]
          [5] (some ⟨[5, 1], true⟩) [5, 3]).1 = true ∧
          d ∈ [⟨[], false⟩, ⟨[5], true⟩, ⟨[5, 1], true⟩, ⟨[5, 3], false⟩] ∧
          d.dname = [5, 3] ∧ d.hasNSEC3 = true) ∨
       ((nsec3_find_cover
          [⟨[], false⟩, ⟨[5], true⟩, ⟨[5, 1], true⟩, ⟨[5, 3], false⟩]
          [5] (some ⟨[5, 1], true⟩) [5, 3]).1 = false ∧
          (coversPred [⟨[], false⟩, ⟨[5], true⟩, ⟨[5, 1], true⟩, ⟨[5, 3], false⟩]
              [5] [5, 3] d ∨
           (noCoverBelow [⟨[], false⟩, ⟨[5], true⟩, ⟨[5, 1], true⟩,
              ⟨[5, 3], false⟩] [5] [5, 3] ∧ d = ⟨[5, 1], true⟩)))) :=
  nsec3_find_cover_correct
    [⟨[], false⟩, ⟨[5], true⟩, ⟨[5, 1], true⟩, ⟨[5, 3], false⟩]
    [5] [5, 3] ⟨[5, 1], true⟩ ⟨[], false⟩
    (by unfold SortedT; decide) (by decide) (by decide) (by decide)

/-! ### The domain numbering list (namedb.c) -/

/-- A domain as seen by the numbering list: its identity and its dense
ordinal `number`. -/
structure DomainN where
  idTag : Nat
  number : Nat
deriving DecidableEq

/-- `allocate_domain_info` (namedb.c): push the new domain at the end of
the numlist, numbered one past the current tail.  The numlist is never
empty (the root is created with the table). -/
def numlist_alloc (l : List DomainN) (i : Nat) : List DomainN :=
  match l.getLast? with
  | some last => l ++ [⟨i, last.number + 1⟩]
  | none => l

/-- `numlist_make_last` (namedb.c): swap numbers with the current tail and
swap list positions with it; if the domain (at position `j`) already is
the tail, do nothing. -/
def numlist_make_last (l : List DomainN) (j : Nat) : List DomainN :=
  if j + 1 = l.length then l
  else
    match l.getLast?, l[j]? with
    | some last, some d =>
      l.dropLast.set j ⟨last.idTag, d.number⟩ ++ [⟨d.idTag, last.number⟩]
    | _, _ => l

/-- `numlist_pop_last` (namedb.c): pop the biggest domain off the list. -/
def numlist_pop_last (l : List DomainN) : List DomainN := l.dropLast

/-- The numbering part of `do_deldomain` (namedb.c): first make the domain
the numbering tail, then pop the tail. -/
def do_deldomain (l : List DomainN) (j : Nat) : List DomainN :=
  numlist_pop_last (numlist_make_last l j)

/-- A table mutation: `domain_table_insert` of a fresh name (which appends
to the numlist), or `domain_table_deldomain` of the domain at numlist
position `j`. -/
inductive TableOp where
  | ins (i : Nat)
  | del (j : Nat)

/-- One operation.  Deletion of the root (position 0) never happens:
`do_deldomain` asserts a parent exists and the root's usage pins it. -/
def applyOp (l : List DomainN) : TableOp → List DomainN
  | .ins i => numlist_alloc l i
  | .del j => if 0 < j ∧ j < l.length then do_deldomain l j else l

/-- Run a sequence of table operations starting from the fresh table,
whose numlist holds just the root with number 1. -/
def runOps (ops : List TableOp) : List DomainN :=
  ops.foldl applyOp [⟨0, 1⟩]

/-- The numbering invariant: positions in numlist order carry numbers
`1..n` exactly, and the root sits at the head with number 1. -/
def numsDense (l : List DomainN) : Prop :=
  l.map DomainN.number = List.range' 1 l.length ∧ l.head? = some ⟨0, 1⟩

theorem set_getElem?_self {α : Type} :
    ∀ (l : List α) (j : Nat) (a : α), l[j]? = some a → l.set j a = l := by
  intro l
  induction l with
  | nil => intro j a h; simp at h
  | cons x xs ih =>
    intro j a h
    cases j with
    | zero =>
      simp at h
      simp [List.set, h]
    | succ j' =>
      simp at h
      simp [List.set, ih j' a h]

theorem head?_set_of_pos {α : Type} (l : List α) (j : Nat) (a : α)
    (h : 0 < j) : (l.set j a).head? = l.head? := by
  cases l with
  | nil => simp
  | cons x xs =>
    cases j with
    | zero => omega
    | succ j' => simp [List.set]

theorem head?_dropLast_of_two_le {α : Type} (l : List α)
    (h : 2 ≤ l.length) : l.dropLast.head? = l.head? := by
  cases l with
  | nil => simp at h
  | cons x xs =>
    cases xs with
    | nil => simp at h
    | cons y ys => simp [List.dropLast]

theorem numsDense_applyOp (l : List DomainN) (op : TableOp)
    (h : numsDense l) : numsDense (applyOp l op) := by
  obtain ⟨hmap, hhead⟩ := h
  have hne : l ≠ [] := by
    intro he
    rw [he] at hhead
    simp at hhead
  obtain ⟨n, hn⟩ : ∃ n, l.length = n + 1 := by
    cases l with
    | nil => exact absurd rfl hne
    | cons x xs => exact ⟨xs.length, by simp⟩
  have hlastnum : l.getLast?.map DomainN.number = some (l.length) := by
    rw [← List.getLast?_map, hmap, hn, List.range'_concat, List.getLast?_concat]
    simp [hn]
    omega
  cases op with
  | ins i =>
    obtain ⟨last, hlast⟩ : ∃ last, l.getLast? = some last := by
      cases hl : l.getLast? with
      | none => rw [hl] at hlastnum; simp at hlastnum
      | some x => exact ⟨x, rfl⟩
    have hlastn : last.number = l.length := by
      rw [hlast] at hlastnum
      simpa using hlastnum
    constructor
    · unfold applyOp numlist_alloc
      rw [hlast]
      rw [List.map_append, hmap, hlastn]
      simp only [List.map_cons, List.map_nil, List.length_append,
        List.length_cons, List.length_nil]
      rw [List.range'_concat]
      simp
      omega
    · unfold applyOp numlist_alloc
      rw [hlast, List.head?_append, hhead]
      rfl
  | del j =>
    by_cases hguard : 0 < j ∧ j < l.length
    · rw [applyOp, if_pos hguard]
      unfold do_deldomain numlist_pop_last numlist_make_last
      by_cases htail : j + 1 = l.length
      · rw [if_pos htail]
        constructor
        · rw [List.map_dropLast, hmap, hn, List.range'_concat]
          simp
          omega
        · rw [head?_dropLast_of_two_le l (by omega), hhead]
      · rw [if_neg htail]
        obtain ⟨last, hlast⟩ : ∃ last, l.getLast? = some last := by
          cases hl : l.getLast? with
          | none => rw [hl] at hlastnum; simp at hlastnum
          | some x => exact ⟨x, rfl⟩
        obtain ⟨d, hd⟩ : ∃ d, l[j]? = some d := by
          cases hl : l[j]? with
          | none =>
            rw [List.getElem?_eq_none_iff] at hl
            omega
          | some x => exact ⟨x, rfl⟩
        rw [hlast, hd]
        rw [List.dropLast_concat]
        have hdnum : d.number = 1 + j := by
          have h2 : (l.map DomainN.number)[j]? = some d.number := by
            rw [List.getElem?_map, hd]
            rfl
          rw [hmap] at h2
          have hj : j < (List.range' 1 l.length).length := by
            simp; omega
          rw [List.getElem?_eq_getElem hj] at h2
          simp [List.getElem_range'] at h2
          omega
        constructor
        · rw [List.map_set, List.map_dropLast, hmap, hn,
            List.range'_concat]
          simp only [Nat.mul_one, List.dropLast_concat]
          have hset : (List.range' 1 n).set j (DomainN.number ⟨last.idTag, d.number⟩) =
              List.range' 1 n := by
            apply set_getElem?_self
            have hj : j < (List.range' 1 n).length := by simp; omega
            rw [List.getElem?_eq_getElem hj]
            simp [List.getElem_range', hdnum]
          rw [hset]
          simp
          omega
        · rw [head?_set_of_pos _ _ _ hguard.1,
            head?_dropLast_of_two_le l (by omega), hhead]
    · rw [applyOp, if_neg hguard]
      exact ⟨hmap, hhead⟩

open List in
/-- C3: after any sequence of inserts and deletes the multiset of domain
numbers, read off in numlist order, is exactly `1..n` (so dense), and the
root keeps number 1 at the head of the list; deletion is literally
swap-to-tail followed by popping the tail. -/
theorem numlist_dense (ops : List TableOp) :
    (runOps ops).map DomainN.number = List.range' 1 (runOps ops).length ∧
    (runOps ops).head? = some ⟨0, 1⟩ ∧
    ∀ (l : List DomainN) (j : Nat),
      do_deldomain l j = numlist_pop_last (numlist_make_last l j) := by
  have : numsDense (runOps ops) := by
    unfold runOps
    induction ops using List.reverseRecOn with
    | nil => exact ⟨rfl, rfl⟩
    | append_singleton ops op ih =>
      rw [List.foldl_append]
      exact numsDense_applyOp _ op ih
  exact ⟨this.1, this.2, fun l j => rfl⟩


/-! ### The XFR coordinator (xfrd.c) -/

/-- Modelled from the spec: `compare_serial`'s strict order (util.c is not
under src/): RFC 1982, `a < b` iff `(b - a) mod 2^32` lies in
`(0, 2^31)`. -/
def serialLt (a b : Nat) : Bool :=
  let d := ((b % 4294967296) + 4294967296 - (a % 4294967296)) % 4294967296
  decide (0 < d ∧ d < 2147483648)

/-- Modelled from the spec: `compare_serial` (util.c is not under src/):
0 on equality, -1 when `a` is RFC-1982 below `b`, else 1. -/
def compare_serial (a b : Nat) : Int :=
  if a % 4294967296 = b % 4294967296 then 0
  else if serialLt a b then -1 else 1

/-- Zone states of the XFR state machine. -/
inductive ZoneState | ok | refreshing | expired
deriving DecidableEq

/-- `enum xfrd_packet_result`. -/
inductive PktResult | bad | more | transfer | newlease | tcp
deriving DecidableEq

/-- The per-zone XFR coordinator state touched by packet handling. -/
structure XfrdZone where
  query_id : Nat
  soa_disk_acquired : Nat
  soa_disk_serial : Nat
  soa_nsd_serial : Nat
  soa_nsd_acquired : Nat
  soa_notified_acquired : Nat
  soa_notified_serial : Nat
  state : ZoneState
  round_num : Int
  msg_seq_nr : Nat
  msg_old_serial : Nat
  msg_new_serial : Nat
  refresh_timer_set : Bool
deriving DecidableEq

/-- The parsed header and leading answer RR of a received XFR reply:
message ID, RCODE, ANCOUNT, and the serial of the first answer RR when
that RR is a SOA. -/
structure XfrPacket where
  pid : Nat
  rcode : Nat
  ancount : Nat
  first_soa : Option Nat
deriving DecidableEq

/-- Outcome of the leading checks of `xfrd_parse_received_xfr_packet`:
either an early return with a result code, or fall through (with the
reply serial) into the transfer-parsing tail of the function. -/
inductive ParseStep
  | ret (r : PktResult) (z : XfrdZone)
  | fallthrough (serial : Nat)
deriving DecidableEq

/-- `xfrd_parse_received_xfr_packet` (xfrd.c), first packet of a UDP
reply (`msg_rr_count = 0`, master without TSIG key): check ID, RCODE and
ANCOUNT, parse the leading SOA, then:
a reply serial RFC-1982-older than the on-disk serial (zone not expired)
is dropped; a reply serial equal to the on-disk serial renews the lease
(state ok, refresh timer) only when no NOTIFY is pending, otherwise the
packet is rejected to try the next master; a newer serial falls through
to transfer parsing. -/
def xfrd_parse_first_packet (z : XfrdZone) (p : XfrPacket) (now : Nat) :
    ParseStep :=
  if p.pid ≠ z.query_id then .ret .bad z
  else if p.rcode ≠ 0 then .ret .bad z
  else if p.ancount = 0 then .ret .bad z
  else match p.first_soa with
  | none => .ret .bad z
  | some serial =>
    if z.soa_disk_acquired ≠ 0 ∧ z.state ≠ .expired ∧
        compare_serial z.soa_disk_serial serial = 1 then .ret .bad z
    else if z.soa_disk_acquired ≠ 0 ∧ z.soa_disk_serial = serial then
      if z.soa_notified_acquired = 0 then
        .ret .newlease { z with
          soa_disk_acquired := now,
          soa_nsd_acquired :=
            if z.soa_nsd_serial = serial then now else z.soa_nsd_acquired,
          state := .ok,
          round_num := -1,
          refresh_timer_set := true }
      else .ret .bad z
    else .fallthrough serial

/-- A difflog commit marker (`diff_write_commit`). -/
structure CommitRec where
  old_serial : Nat
  new_serial : Nat
  xid : Nat
  parts : Nat
  committed : Bool
deriving DecidableEq

/-- A difflog record: a stored XFR packet part or a commit marker. -/
inductive DiffRec
  | packet (new_serial : Nat) (xid : Nat) (seq : Nat)
  | commit (c : CommitRec)
deriving DecidableEq

/-- The dispatch of `xfrd_handle_received_xfr_packet` (xfrd.c) on the
parse result of the current packet: a bad packet after parts were already
written appends a rollback marker (committed flag 0) and leaves the zone
untouched; more/transfer write the packet part; transfer further appends
the commit (flag 1) and updates the on-disk SOA bookkeeping. -/
def xfrd_handle_received (z : XfrdZone) (res : PktResult) (soa_serial : Nat)
    (now : Nat) : PktResult × XfrdZone × List DiffRec :=
  match res with
  | .newlease => (.newlease, z, [])
  | .tcp => (.tcp, z, [])
  | .bad =>
    if 0 < z.msg_seq_nr then
      (.bad, z, [.commit ⟨z.msg_old_serial, z.msg_new_serial, z.query_id,
        z.msg_seq_nr, false⟩])
    else (.bad, z, [])
  | .more =>
    (.more, { z with msg_seq_nr := z.msg_seq_nr + 1 },
      [.packet z.msg_new_serial z.query_id z.msg_seq_nr])
  | .transfer =>
    let recs := [DiffRec.packet z.msg_new_serial z.query_id z.msg_seq_nr,
      DiffRec.commit ⟨z.msg_old_serial, z.msg_new_serial, z.query_id,
        z.msg_seq_nr + 1, true⟩]
    let notifiedAcq :=
      if z.soa_notified_acquired ≠ 0 ∧ (z.soa_notified_serial = 0 ∨
          ¬ compare_serial soa_serial z.soa_notified_serial = -1)
      then 0 else z.soa_notified_acquired
    let zdone : XfrdZone :=
      { z with msg_seq_nr := z.msg_seq_nr + 1,
               soa_disk_acquired := now, soa_disk_serial := soa_serial,
               soa_notified_acquired := 0,
               state := (if z.state = ZoneState.expired then z.state
                         else ZoneState.ok),
               round_num := -1, refresh_timer_set := true }
    let zwait : XfrdZone :=
      { z with msg_seq_nr := z.msg_seq_nr + 1,
               soa_disk_acquired := now, soa_disk_serial := soa_serial }
    if notifiedAcq = 0 then (.transfer, zdone, recs)
    else (.bad, zwait, recs)

/-- `XFRD_TSIG_MAX_UNSIGNED` (xfrd.c). -/
def XFRD_TSIG_MAX_UNSIGNED : Nat := 103

/-- What `tsig_find_rr` and `tsig_verify` report about a packet: a
malformed TSIG record, a TSIG record (valid or not), or none. -/
inductive TsigRR | malformed | present (valid : Bool) | absent
deriving DecidableEq

/-- `xfrd_xfr_process_tsig` (xfrd.c).  The `Nat` state is the running
hash counter `tsig.updates_since_last_prepare`; every processed packet
updates the running hash (counter + 1), a verified TSIG resets it via
`tsig_prepare`.  Result: the new counter, or `none` when the packet is
rejected (malformed TSIG, bad signature, too many consecutive unsigned
packets, or an unsigned first packet). -/
def xfrd_xfr_process_tsig (updates msg_seq_nr : Nat) (rr : TsigRR) :
    Option Nat :=
  match rr with
  | .malformed => none
  | .present valid => if valid then some 0 else none
  | .absent =>
    if updates + 1 > XFRD_TSIG_MAX_UNSIGNED then none
    else if msg_seq_nr = 0 then none
    else some (updates + 1)

/-! ### NSEC3 parameter detection (nsec3.c) -/

/-- The iterations read of `detect_nsec3_params` (nsec3.c): three
big-endian rdata bytes assembled and masked with `0x7fffff`. -/
def detect_nsec3_iterations (b0 b1 b2 : Nat) : Nat :=
  ((b0 <<< 16) ||| (b1 <<< 8) ||| b2) &&& 0x7fffff

/-- `nsec3_has_soa` (nsec3.c) on the type-bitmap rdata bytes: nonempty,
first window is 0, and the SOA bit (0x02 of the third byte) is set. -/
def nsec3_has_soa (bitmap : List Nat) : Bool :=
  match bitmap with
  | w :: _len :: b :: _ => decide (w = 0) && decide (b &&& 2 ≠ 0)
  | _ => false

/-- An NSEC3 RR as parameter detection sees it: the type bitmap
(`rdatas[4]`) and the three iteration bytes (`rdatas[1]`). -/
structure Nsec3RRm where
  typeBitmap : List Nat
  iter0 : Nat
  iter1 : Nat
  iter2 : Nat
deriving DecidableEq

/-- `find_zone_nsec3` (nsec3.c): first NSEC3 RRset in zone walk order
whose first RR has the SOA bit in its type bitmap. -/
def find_zone_nsec3 (rrsets : List Nsec3RRm) : Option Nsec3RRm :=
  rrsets.find? fun r => nsec3_has_soa r.typeBitmap

/-- The NSEC3-enable decision of `prehash_zone` (nsec3.c): NSEC3 is on
iff a SOA-flagged NSEC3 RRset exists and the hash of the apex matches its
owner; the iteration count used is then the (masked) detected value.  No
bound on the iteration count is ever checked. -/
def prehash_zone_nsec3 (rrsets : List Nsec3RRm) (apexHashMatches : Bool) :
    Option Nat :=
  match find_zone_nsec3 rrsets with
  | none => none
  | some r =>
    if apexHashMatches then
      some (detect_nsec3_iterations r.iter0 r.iter1 r.iter2)
    else none


/-- A concrete zone for the C4 counterexample: on-disk serial 2 acquired
at time 100, refreshing, no NOTIFY pending. -/
def c4zone : XfrdZone :=
  ⟨7, 100, 2, 0, 0, 0, 0, ZoneState.refreshing, 0, 0, 0, 0, false⟩

/-- A concrete matching reply for C4: ID 7, RCODE 0, exactly one answer
RR which is a SOA with serial 1 (RFC-1982 below the on-disk serial 2). -/
def c4packet : XfrPacket := ⟨7, 0, 1, some 1⟩

/-- C4 counterexample: a single-SOA reply with serial 1 strictly below
the on-disk serial 2 is rejected as a bad packet: the zone is returned
unchanged, still `refreshing`, with no refresh timer scheduled -- it is
not treated as "already up-to-date" as the claim requires for
`serial ≤ soa_disk.serial`. -/
theorem xfrd_uptodate_counterexample :
    serialLt 1 2 = true ∧
    xfrd_parse_first_packet c4zone c4packet 200 = .ret .bad c4zone ∧
    c4zone.state = ZoneState.refreshing ∧
    c4zone.refresh_timer_set = false ∧
    c4zone.soa_notified_acquired = 0 := by
  refine ⟨by decide, ?_, rfl, rfl, rfl⟩
  decide

/-- C4 as amended: only a reply serial *equal* to the on-disk serial with
no NOTIFY pending renews the lease (state ok, refresh timer,
`soa_disk_acquired` refreshed); an equal serial with a NOTIFY pending, or
a strictly RFC-1982-older serial on a non-expired zone, is rejected as a
bad packet with the zone left unchanged, the pending `soa_notified` not
being cleared. -/
theorem xfrd_uptodate_amended (z : XfrdZone) (p : XfrPacket) (now s : Nat)
    (hid : p.pid = z.query_id) (hrc : p.rcode = 0) (han : p.ancount = 1)
    (hsoa : p.first_soa = some s) (hdisk : z.soa_disk_acquired ≠ 0) :
    (s = z.soa_disk_serial ∧ z.soa_notified_acquired = 0 →
      xfrd_parse_first_packet z p now = .ret .newlease { z with
        soa_disk_acquired := now,
        soa_nsd_acquired :=
          if z.soa_nsd_serial = s then now else z.soa_nsd_acquired,
        state := .ok, round_num := -1, refresh_timer_set := true }) ∧
    (s = z.soa_disk_serial ∧ z.soa_notified_acquired ≠ 0 →
      xfrd_parse_first_packet z p now = .ret .bad z) ∧
    (compare_serial z.soa_disk_serial s = 1 ∧ z.state ≠ .expired →
      xfrd_parse_first_packet z p now = .ret .bad z) := by
  have hcmp_self : ∀ a : Nat, compare_serial a a = 0 := by
    intro a
    unfold compare_serial
    rw [if_pos rfl]
  refine ⟨?_, ?_, ?_⟩
  · rintro ⟨hs, hnot⟩
    subst hs
    unfold xfrd_parse_first_packet
    rw [if_neg (by simp [hid]), if_neg (by simp [hrc]),
      if_neg (by simp [han]), hsoa]
    dsimp only
    rw [if_neg (by
      rintro ⟨-, -, hc⟩
      rw [hcmp_self] at hc
      exact absurd hc (by decide))]
    rw [if_pos ⟨hdisk, rfl⟩, if_pos hnot]
  · rintro ⟨hs, hnot⟩
    subst hs
    unfold xfrd_parse_first_packet
    rw [if_neg (by simp [hid]), if_neg (by simp [hrc]),
      if_neg (by simp [han]), hsoa]
    dsimp only
    rw [if_neg (by
      rintro ⟨-, -, hc⟩
      rw [hcmp_self] at hc
      exact absurd hc (by decide))]
    rw [if_pos ⟨hdisk, rfl⟩, if_neg hnot]
  · rintro ⟨hcmp, hexp⟩
    unfold xfrd_parse_first_packet
    rw [if_neg (by simp [hid]), if_neg (by simp [hrc]),
      if_neg (by simp [han]), hsoa]
    dsimp only
    rw [if_pos ⟨hdisk, hexp, hcmp⟩]

/-- Witness for the amended C4 at a concrete zone: serial 5 equal to the
on-disk serial with no pending NOTIFY renews the lease. -/
theorem xfrd_uptodate_amended_witness :
    ((5 : Nat) = (⟨9, 50, 5, 5, 10, 0, 0, ZoneState.ok, 0, 0, 0, 0,
        false⟩ : XfrdZone).soa_disk_serial ∧
      (⟨9, 50, 5, 5, 10, 0, 0, ZoneState.ok, 0, 0, 0, 0,
        false⟩ : XfrdZone).soa_notified_acquired = 0 →
      xfrd_parse_first_packet
        ⟨9, 50, 5, 5, 10, 0, 0, ZoneState.ok, 0, 0, 0, 0, false⟩
        ⟨9, 0, 1, some 5⟩ 777 =
        .ret .newlease { (⟨9, 50, 5, 5, 10, 0, 0, ZoneState.ok, 0, 0, 0, 0,
            false⟩ : XfrdZone) with
          soa_disk_acquired := 777,
          soa_nsd_acquired :=
            if (⟨9, 50, 5, 5, 10, 0, 0, ZoneState.ok, 0, 0, 0, 0,
                false⟩ : XfrdZone).soa_nsd_serial = 5 then 777
            else (⟨9, 50, 5, 5, 10, 0, 0, ZoneState.ok, 0, 0, 0, 0,
                false⟩ : XfrdZone).soa_nsd_acquired,
          state := .ok, round_num := -1, refresh_timer_set := true }) ∧
    ((compare_serial (⟨9, 50, 5, 5, 10, 0, 0, ZoneState.ok, 0, 0, 0, 0,
        false⟩ : XfrdZone).soa_disk_serial 5 = 1 ∧
      (⟨9, 50, 5, 5, 10, 0, 0, ZoneState.ok, 0, 0, 0, 0,
        false⟩ : XfrdZone).state ≠ .expired →
      xfrd_parse_first_packet
        ⟨9, 50, 5, 5, 10, 0, 0, ZoneState.ok, 0, 0, 0, 0, false⟩
        ⟨9, 0, 1, some 5⟩ 777 =
        .ret .bad ⟨9, 50, 5, 5, 10, 0, 0, ZoneState.ok, 0, 0, 0, 0, false⟩)) :=
  ⟨(xfrd_uptodate_amended ⟨9, 50, 5, 5, 10, 0, 0, ZoneState.ok, 0, 0, 0, 0,
      false⟩ ⟨9, 0, 1, some 5⟩ 777 5 rfl rfl rfl rfl (by decide)).1,
   (xfrd_uptodate_amended ⟨9, 50, 5, 5, 10, 0, 0, ZoneState.ok, 0, 0, 0, 0,
      false⟩ ⟨9, 0, 1, some 5⟩ 777 5 rfl rfl rfl rfl (by decide)).2.2⟩

/-- C9: when the reply stream turns bad after at least one part of the
transfer was written to the difflog (`msg_seq_nr > 0`), the coordinator
appends exactly one rollback commit record -- committed flag 0, naming
the old and new serial and the number of parts -- and the zone (its
`soa_disk` serial, `soa_disk_acquired` time and state in particular) is
left unchanged. -/
theorem xfrd_rollback_on_bad (z : XfrdZone) (s now : Nat)
    (h : 0 < z.msg_seq_nr) :
    xfrd_handle_received z .bad s now =
      (.bad, z, [.commit ⟨z.msg_old_serial, z.msg_new_serial, z.query_id,
        z.msg_seq_nr, false⟩]) ∧
    (xfrd_handle_received z .bad s now).2.1.soa_disk_serial =
      z.soa_disk_serial ∧
    (xfrd_handle_received z .bad s now).2.1.soa_disk_acquired =
      z.soa_disk_acquired ∧
    (xfrd_handle_received z .bad s now).2.1.state = z.state := by
  have hres : xfrd_handle_received z .bad s now =
      (.bad, z, [.commit ⟨z.msg_old_serial, z.msg_new_serial, z.query_id,
        z.msg_seq_nr, false⟩]) := by
    unfold xfrd_handle_received
    rw [if_pos h]
  exact ⟨hres, by rw [hres], by rw [hres], by rw [hres]⟩

/-- Witness for C9 at a concrete zone that already wrote two parts. -/
theorem xfrd_rollback_on_bad_witness :
    xfrd_handle_received
      ⟨3, 40, 10, 0, 0, 0, 0, ZoneState.refreshing, 0, 2, 10, 11, false⟩
      .bad 11 999 =
      (.bad, ⟨3, 40, 10, 0, 0, 0, 0, ZoneState.refreshing, 0, 2, 10, 11,
        false⟩, [.commit ⟨10, 11, 3, 2, false⟩]) ∧
    (xfrd_handle_received
      ⟨3, 40, 10, 0, 0, 0, 0, ZoneState.refreshing, 0, 2, 10, 11, false⟩
      .bad 11 999).2.1.soa_disk_serial = 10 ∧
    (xfrd_handle_received
      ⟨3, 40, 10, 0, 0, 0, 0, ZoneState.refreshing, 0, 2, 10, 11, false⟩
      .bad 11 999).2.1.soa_disk_acquired = 40 ∧
    (xfrd_handle_received
      ⟨3, 40, 10, 0, 0, 0, 0, ZoneState.refreshing, 0, 2, 10, 11, false⟩
      .bad 11 999).2.1.state = ZoneState.refreshing :=
  xfrd_rollback_on_bad
    ⟨3, 40, 10, 0, 0, 0, 0, ZoneState.refreshing, 0, 2, 10, 11, false⟩
    11 999 (by decide)

/-- C7: with a TSIG key configured, the first packet of a reply stream is
dropped unless it carries a valid TSIG; any packet after more than
`XFRD_TSIG_MAX_UNSIGNED = 103` consecutive unsigned packets is dropped; a
verified TSIG resets the running-hash counter to 0, and every accepted
unsigned packet advances it by one (the hash runs over every packet);
malformed or invalid TSIG records always drop the stream. -/
theorem xfrd_tsig_policy (u s : Nat) (rr : TsigRR) :
    (s = 0 → rr ≠ .present true → xfrd_xfr_process_tsig u s rr = none) ∧
    (rr = .absent → u + 1 > XFRD_TSIG_MAX_UNSIGNED →
      xfrd_xfr_process_tsig u s rr = none) ∧
    (rr = .present true → xfrd_xfr_process_tsig u s rr = some 0) ∧
    (rr = .absent → u + 1 ≤ XFRD_TSIG_MAX_UNSIGNED → s ≠ 0 →
      xfrd_xfr_process_tsig u s rr = some (u + 1)) ∧
    (rr = .malformed ∨ rr = .present false →
      xfrd_xfr_process_tsig u s rr = none) := by
  refine ⟨?_, ?_, ?_, ?_, ?_⟩
  · rintro rfl hne
    cases rr with
    | malformed => rfl
    | present valid =>
      cases valid with
      | false => rfl
      | true => exact absurd rfl hne
    | absent =>
      unfold xfrd_xfr_process_tsig
      by_cases hmax : u + 1 > XFRD_TSIG_MAX_UNSIGNED
      · rw [if_pos hmax]
      · rw [if_neg hmax, if_pos rfl]
  · rintro rfl hmax
    unfold xfrd_xfr_process_tsig
    rw [if_pos hmax]
  · rintro rfl
    rfl
  · rintro rfl hmax hs
    unfold xfrd_xfr_process_tsig
    rw [if_neg (by omega), if_neg hs]
  · rintro (rfl | rfl) <;> rfl

/-- Witness for C7: concrete evaluations of the four policy clauses. -/
theorem xfrd_tsig_policy_witness :
    xfrd_xfr_process_tsig 0 0 .absent = none ∧
    xfrd_xfr_process_tsig 103 5 .absent = none ∧
    xfrd_xfr_process_tsig 40 0 (.present true) = some 0 ∧
    xfrd_xfr_process_tsig 40 5 .absent = some 41 :=
  ⟨(xfrd_tsig_policy 0 0 .absent).1 rfl (by decide),
   (xfrd_tsig_policy 103 5 .absent).2.1 rfl (by decide),
   (xfrd_tsig_policy 40 0 (.present true)).2.2.1 rfl,
   (xfrd_tsig_policy 40 5 .absent).2.2.2.1 rfl (by decide) (by decide)⟩

/-- C6 counterexample: an NSEC3 parameter record whose raw iterations
field `0x800000` exceeds `0x7fffff` does not get the zone rejected: NSEC3
stays enabled and the iteration count used is the masked value 0. -/
theorem nsec3_iterations_counterexample :
    ((0x80 <<< 16) ||| (0 <<< 8) ||| 0) > 0x7fffff ∧
    prehash_zone_nsec3 [⟨[0, 1, 2], 0x80, 0, 0⟩] true = some 0 := by
  constructor
  · decide
  · rfl

/-- C6 as amended: the iterations field is truncated to its low 23 bits
(`& 0x7fffff`); raw values up to `0x7fffff` (0 and the boundary in
particular) are used unchanged, larger raw values are silently masked --
never rejected -- and whether NSEC3 is enabled for the zone does not
depend on the iteration bytes at all. -/
theorem nsec3_iterations_amended (b0 b1 b2 : Nat) :
    detect_nsec3_iterations b0 b1 b2 =
      ((b0 <<< 16) ||| (b1 <<< 8) ||| b2) % 8388608 ∧
    (((b0 <<< 16) ||| (b1 <<< 8) ||| b2) ≤ 8388607 →
      detect_nsec3_iterations b0 b1 b2 =
        ((b0 <<< 16) ||| (b1 <<< 8) ||| b2)) ∧
    detect_nsec3_iterations b0 b1 b2 ≤ 8388607 ∧
    ∀ (bm : List Nat) (hm : Bool),
      prehash_zone_nsec3 [⟨bm, b0, b1, b2⟩] hm =
        if nsec3_has_soa bm && hm then
          some (detect_nsec3_iterations b0 b1 b2)
        else none := by
  have hmask : detect_nsec3_iterations b0 b1 b2 =
      ((b0 <<< 16) ||| (b1 <<< 8) ||| b2) % 8388608 := by
    unfold detect_nsec3_iterations
    have h23 : (8388607 : Nat) = 2 ^ 23 - 1 := by norm_num
    have h23' : (8388608 : Nat) = 2 ^ 23 := by norm_num
    rw [show (0x7fffff : Nat) = 2 ^ 23 - 1 by norm_num,
      Nat.and_pow_two_sub_one_eq_mod, ← h23']
  refine ⟨hmask, ?_, ?_, ?_⟩
  · intro hle
    rw [hmask]
    exact Nat.mod_eq_of_lt (by omega)
  · rw [hmask]
    have := Nat.mod_lt ((b0 <<< 16) ||| (b1 <<< 8) ||| b2)
      (show 0 < 8388608 by norm_num)
    omega
  · intro bm hm
    unfold prehash_zone_nsec3 find_zone_nsec3
    cases hsoa : nsec3_has_soa bm with
    | false =>
      rw [List.find?_cons_of_neg _ (by simp [hsoa])]
      simp
    | true =>
      rw [List.find?_cons_of_pos _ (by simp [hsoa])]
      cases hm with
      | false => simp
      | true => simp

/-- Witness for the amended C6 at the two boundary iteration values. -/
theorem nsec3_iterations_amended_witness :
    (((0 <<< 16) ||| (0 <<< 8) ||| 0) ≤ 8388607 →
      detect_nsec3_iterations 0 0 0 = ((0 <<< 16) ||| (0 <<< 8) ||| 0)) ∧
    (((0x7f <<< 16) ||| (0xff <<< 8) ||| 0xff) ≤ 8388607 →
      detect_nsec3_iterations 0x7f 0xff 0xff =
        ((0x7f <<< 16) ||| (0xff <<< 8) ||| 0xff)) ∧
    detect_nsec3_iterations 0x80 0 1 ≤ 8388607 :=
  ⟨(nsec3_iterations_amended 0 0 0).2.1,
   (nsec3_iterations_amended 0x7f 0xff 0xff).2.1,
   (nsec3_iterations_amended 0x80 0 1).2.2.1⟩


/-! ### The resolver (query.c) -/

/-- CLASS_IN (dns.h). -/
def CLASS_IN : Nat := 1
/-- CLASS_ANY (dns.h). -/
def CLASS_ANY : Nat := 255
/-- TYPE_NS (dns.h). -/
def TYPE_NS : Nat := 2
/-- TYPE_SOA (dns.h). -/
def TYPE_SOA : Nat := 6
/-- TYPE_IXFR (dns.h). -/
def TYPE_IXFR : Nat := 251
/-- TYPE_AXFR (dns.h). -/
def TYPE_AXFR : Nat := 252
/-- TYPE_MAILB (dns.h). -/
def TYPE_MAILB : Nat := 253
/-- TYPE_MAILA (dns.h). -/
def TYPE_MAILA : Nat := 254
/-- RCODE_OK (dns.h). -/
def RCODE_OK : Nat := 0
/-- RCODE_FORMAT, i.e. FORMERR (dns.h). -/
def RCODE_FORMAT : Nat := 1
/-- RCODE_SERVFAIL (dns.h). -/
def RCODE_SERVFAIL : Nat := 2
/-- RCODE_NXDOMAIN (dns.h). -/
def RCODE_NXDOMAIN : Nat := 3
/-- RCODE_IMPL, i.e. NOTIMP (dns.h). -/
def RCODE_IMPL : Nat := 4
/-- RCODE_REFUSE, i.e. REFUSED (dns.h). -/
def RCODE_REFUSE : Nat := 5
/-- OPCODE_QUERY (dns.h). -/
def OPCODE_QUERY : Nat := 0

/-- An answer-database domain as `query_process` uses it: the delegation
flag and `db_answer` as a map from RR type to an abstract answer blob. -/
structure DomainM where
  delegation : Bool
  answers : Nat → Option Nat

/-- The answer database: `db_lookup` keyed by the remaining query name
(leftmost label first, as the resolver strips), and the three depth
bitmasks `mask.data`, `mask.auth`, `mask.stars`. -/
structure DbM where
  lookup : List Nat → Option DomainM
  maskData : Nat → Bool
  maskAuth : Nat → Bool
  maskStars : Nat → Bool

/-- The wildcard label `\x01*` prepended for star lookups, as an abstract
label value. -/
def starLabel : Nat := 1

/-- What the response carries besides header bits: a positive answer, a
delegation NS referral, or a SOA-only authority (NODATA / NXDOMAIN). -/
inductive QAnswer
  | pos (a : Nat)
  | nsref (a : Nat)
  | soaAuth (a : Nat)
deriving DecidableEq

/-- The observable response: RCODE, the AA bit, and the answer content. -/
structure QResp where
  rcode : Nat
  aa : Bool
  ans : Option QAnswer
deriving DecidableEq

/-- The AA decision of query.c: `AA_SET` unless the query class is
CLASS_ANY, in which case `AA_CLR`. -/
def aaFor (qclass : Nat) : Bool := decide (qclass ≠ CLASS_ANY)

/-- Outcome of one iteration of the label-stripping loop: a final
response, or continue with the (possibly updated) tentative RCODE. -/
inductive StepOut
  | done (r : QResp)
  | cont (rc : Nat)
deriving DecidableEq

/-- One iteration of the label-stripping loop of `query_process`
(query.c), run on the remaining (already stripped) name `s`: look for a
zone cut or SOA at `s`, else try the wildcard `*.s` when still heading
for NXDOMAIN. -/
def query_step (db : DbM) (qclass qtype : Nat) (s : List Nat) (rc : Nat) :
    StepOut :=
  match (if db.maskAuth s.length then db.lookup s else none) with
  | some d =>
    if d.delegation then
      match d.answers TYPE_NS with
      | none => .done ⟨RCODE_SERVFAIL, false, none⟩
      | some a => .done ⟨RCODE_OK, false, some (.nsref a)⟩
    else
      match d.answers TYPE_SOA with
      | some a => .done ⟨rc, aaFor qclass, some (.soaAuth a)⟩
      | none => .cont rc
  | none =>
    if db.maskStars (s.length + 1) ∧ rc = RCODE_NXDOMAIN then
      match db.lookup (starLabel :: s) with
      | some d =>
        match d.answers qtype with
        | some a => .done ⟨RCODE_OK, aaFor qclass, some (.pos a)⟩
        | none => .cont RCODE_OK
      | none => .cont rc
    else .cont rc

/-- The do-while loop of `query_process` (query.c): strip the leftmost
label, run the step, and continue while labels remain; falling off the
loop yields SERVFAIL. -/
def query_loop (db : DbM) (qclass qtype : Nat) : List Nat → Nat → QResp
  | [], rc =>
    (match query_step db qclass qtype [] rc with
     | .done r => r
     | .cont _ => ⟨RCODE_SERVFAIL, false, none⟩)
  | _ :: rest, rc =>
    (match query_step db qclass qtype rest rc with
     | .done r => r
     | .cont rc2 =>
       match rest with
       | [] => ⟨RCODE_SERVFAIL, false, none⟩
       | _ :: _ => query_loop db qclass qtype rest rc2)

/-- The complete-name phase of `query_process` (query.c): exact lookup of
the whole query name, then delegation / positive / NODATA-with-SOA, else
enter the loop with NXDOMAIN tentatively set iff the name was absent. -/
def query_lookup (db : DbM) (qclass qtype : Nat) (qname : List Nat) :
    QResp :=
  match (if db.maskData qname.length then db.lookup qname else none) with
  | some d =>
    if d.delegation then
      match d.answers TYPE_NS with
      | none => ⟨RCODE_SERVFAIL, false, none⟩
      | some a => ⟨RCODE_OK, false, some (.nsref a)⟩
    else
      match d.answers qtype with
      | some a => ⟨RCODE_OK, aaFor qclass, some (.pos a)⟩
      | none =>
        match d.answers TYPE_SOA with
        | some a => ⟨RCODE_OK, aaFor qclass, some (.soaAuth a)⟩
        | none => query_loop db qclass qtype qname RCODE_OK
  | none => query_loop db qclass qtype qname RCODE_NXDOMAIN

/-- The parsed DNS header fields `query_process` inspects. -/
structure QHeader where
  qr : Bool
  opcode : Nat
  qdcount : Nat
  ancount : Nat
  nscount : Nat
  arcount : Nat
deriving DecidableEq

/-- `query_process` (query.c) on a parsed message: drop (none) when QR is
set; NOTIMP for a non-QUERY opcode or `QDCOUNT != 1`; FORMERR for any
non-empty other section; REFUSED for classes other than IN/ANY and for
AXFR/IXFR; NOTIMP for MAILA/MAILB; otherwise resolve.  (The wire-format
qname parsing, whose failures also yield FORMERR, is outside this model:
the qname arrives parsed.) -/
def query_process (hdr : QHeader) (qclass qtype : Nat) (qname : List Nat)
    (db : DbM) : Option QResp :=
  if hdr.qr then none
  else if hdr.opcode ≠ OPCODE_QUERY then some ⟨RCODE_IMPL, false, none⟩
  else if hdr.qdcount ≠ 1 then some ⟨RCODE_IMPL, false, none⟩
  else if hdr.ancount ≠ 0 ∨ hdr.nscount ≠ 0 ∨ hdr.arcount ≠ 0 then
    some ⟨RCODE_FORMAT, false, none⟩
  else if qclass ≠ CLASS_IN ∧ qclass ≠ CLASS_ANY then
    some ⟨RCODE_REFUSE, false, none⟩
  else if qtype = TYPE_AXFR ∨ qtype = TYPE_IXFR then
    some ⟨RCODE_REFUSE, false, none⟩
  else if qtype = TYPE_MAILA ∨ qtype = TYPE_MAILB then
    some ⟨RCODE_IMPL, false, none⟩
  else some (query_lookup db qclass qtype qname)

/-- A database with nothing in it, for concrete counterexamples. -/
def dbEmpty : DbM := ⟨fun _ => none, fun _ => false, fun _ => false, fun _ => false⟩


/-- Clear the AA bit of a response. -/
def clearAA (r : QResp) : QResp := ⟨r.rcode, false, r.ans⟩

theorem query_step_any (db : DbM) (qt : Nat) (s : List Nat) (rc : Nat) :
    query_step db CLASS_ANY qt s rc =
      (match query_step db CLASS_IN qt s rc with
       | .done r => .done (clearAA r)
       | .cont rc2 => .cont rc2) := by
  unfold query_step
  cases hl : (if db.maskAuth s.length then db.lookup s else none) with
  | none =>
    dsimp only
    by_cases hst : db.maskStars (s.length + 1) ∧ rc = RCODE_NXDOMAIN
    · rw [if_pos hst, if_pos hst]
      cases hw : db.lookup (starLabel :: s) with
      | none => rfl
      | some d =>
        dsimp only
        cases ha : d.answers qt with
        | none => rfl
        | some a => simp [clearAA, aaFor, CLASS_ANY, CLASS_IN]
    · rw [if_neg hst, if_neg hst]
  | some d =>
    dsimp only
    by_cases hd : d.delegation = true
    · rw [if_pos hd, if_pos hd]
      cases d.answers TYPE_NS with
      | none => rfl
      | some a => rfl
    · rw [if_neg hd, if_neg hd]
      cases d.answers TYPE_SOA with
      | none => rfl
      | some a => simp [clearAA, aaFor, CLASS_ANY, CLASS_IN]

theorem query_loop_any (db : DbM) (qt : Nat) (qn : List Nat) (rc : Nat) :
    query_loop db CLASS_ANY qt qn rc =
      clearAA (query_loop db CLASS_IN qt qn rc) := by
  induction qn generalizing rc with
  | nil =>
    simp only [query_loop]
    rw [query_step_any]
    cases query_step db CLASS_IN qt [] rc with
    | done r => rfl
    | cont rc2 => rfl
  | cons x rest ih =>
    simp only [query_loop]
    rw [query_step_any]
    cases query_step db CLASS_IN qt rest rc with
    | done r => rfl
    | cont rc2 =>
      cases rest with
      | nil => rfl
      | cons y ys => exact ih rc2

theorem query_lookup_any (db : DbM) (qt : Nat) (qn : List Nat) :
    query_lookup db CLASS_ANY qt qn =
      clearAA (query_lookup db CLASS_IN qt qn) := by
  unfold query_lookup
  cases hl : (if db.maskData qn.length then db.lookup qn else none) with
  | none => exact query_loop_any db qt qn RCODE_NXDOMAIN
  | some d =>
    dsimp only
    by_cases hd : d.delegation = true
    · rw [if_pos hd, if_pos hd]
      cases d.answers TYPE_NS with
      | none => rfl
      | some a => rfl
    · rw [if_neg hd, if_neg hd]
      cases d.answers qt with
      | some a => simp [clearAA, aaFor, CLASS_ANY, CLASS_IN]
      | none =>
        cases d.answers TYPE_SOA with
        | some a => simp [clearAA, aaFor, CLASS_ANY, CLASS_IN]
        | none => exact query_loop_any db qt qn RCODE_OK

theorem query_step_rcode (db : DbM) (qc qt : Nat) (s : List Nat) (rc : Nat) :
    (match query_step db qc qt s rc with
     | .done r => r.rcode = RCODE_SERVFAIL ∨ r.rcode = RCODE_OK ∨ r.rcode = rc
     | .cont rc2 => rc2 = rc ∨ rc2 = RCODE_OK) := by
  unfold query_step
  cases hl : (if db.maskAuth s.length then db.lookup s else none) with
  | some d =>
    dsimp only
    by_cases hd : d.delegation = true
    · rw [if_pos hd]
      cases d.answers TYPE_NS with
      | none => simp
      | some a => simp
    · rw [if_neg hd]
      cases d.answers TYPE_SOA with
      | some a => simp
      | none => simp
  | none =>
    dsimp only
    by_cases hst : db.maskStars (s.length + 1) ∧ rc = RCODE_NXDOMAIN
    · rw [if_pos hst]
      cases db.lookup (starLabel :: s) with
      | some d =>
        dsimp only
        cases d.answers qt with
        | some a => simp
        | none => simp
      | none => simp
    · rw [if_neg hst]
      simp

theorem query_loop_no_refuse (db : DbM) (qc qt : Nat) :
    ∀ (qn : List Nat) (rc : Nat), rc ≠ RCODE_REFUSE →
      (query_loop db qc qt qn rc).rcode ≠ RCODE_REFUSE := by
  intro qn
  induction qn with
  | nil =>
    intro rc hrc
    simp only [query_loop]
    have h := query_step_rcode db qc qt [] rc
    cases hstep : query_step db qc qt [] rc with
    | done r =>
      rw [hstep] at h
      dsimp only
      rcases h with h | h | h
      · rw [h]; decide
      · rw [h]; decide
      · rw [h]; exact hrc
    | cont rc2 =>
      dsimp only
      decide
  | cons x rest ih =>
    intro rc hrc
    simp only [query_loop]
    have h := query_step_rcode db qc qt rest rc
    cases hstep : query_step db qc qt rest rc with
    | done r =>
      rw [hstep] at h
      dsimp only
      rcases h with h | h | h
      · rw [h]; decide
      · rw [h]; decide
      · rw [h]; exact hrc
    | cont rc2 =>
      rw [hstep] at h
      cases rest with
      | nil =>
        dsimp only
        decide
      | cons y ys =>
        apply ih
        rcases h with h | h
        · rw [h]; exact hrc
        · rw [h]; decide
    
theorem query_lookup_no_refuse (db : DbM) (qc qt : Nat) (qn : List Nat) :
    (query_lookup db qc qt qn).rcode ≠ RCODE_REFUSE := by
  unfold query_lookup
  cases hl : (if db.maskData qn.length then db.lookup qn else none) with
  | none => exact query_loop_no_refuse db qc qt qn RCODE_NXDOMAIN (by decide)
  | some d =>
    dsimp only
    by_cases hd : d.delegation = true
    · rw [if_pos hd]
      cases d.answers TYPE_NS with
      | none => dsimp only; decide
      | some a => dsimp only; decide
    · rw [if_neg hd]
      cases d.answers qt with
      | some a => dsimp only; decide
      | none =>
        cases d.answers TYPE_SOA with
        | some a => dsimp only; decide
        | none => exact query_loop_no_refuse db qc qt qn RCODE_OK (by decide)

/-- C5 counterexample: a QR-clear QUERY with `QDCOUNT = 2` is answered
with RCODE NOTIMPL (`RCODE_IMPL = 4`), not FORMERR (`RCODE_FORMAT = 1`)
as the claim states. -/
theorem query_qdcount_counterexample :
    query_process ⟨false, 0, 2, 0, 0, 0⟩ CLASS_IN 1 [] dbEmpty =
      some ⟨RCODE_IMPL, false, none⟩ ∧
    RCODE_IMPL ≠ RCODE_FORMAT := by
  exact ⟨rfl, by decide⟩

/-- C5 as amended: for a QR-clear QUERY-opcode message, `QDCOUNT != 1`
stops processing with RCODE NOTIMPL, and (with `QDCOUNT = 1`) any
non-zero ANCOUNT, NSCOUNT or ARCOUNT stops processing with FORMERR -- the
code checks only the counts, with no exception for an OPT record. -/
theorem query_header_rcode (hdr : QHeader) (qclass qtype : Nat)
    (qname : List Nat) (db : DbM)
    (hqr : hdr.qr = false) (hop : hdr.opcode = OPCODE_QUERY) :
    (hdr.qdcount ≠ 1 →
      query_process hdr qclass qtype qname db =
        some ⟨RCODE_IMPL, false, none⟩) ∧
    (hdr.qdcount = 1 →
      (hdr.ancount ≠ 0 ∨ hdr.nscount ≠ 0 ∨ hdr.arcount ≠ 0) →
      query_process hdr qclass qtype qname db =
        some ⟨RCODE_FORMAT, false, none⟩) := by
  constructor
  · intro hqd
    unfold query_process
    rw [if_neg (by simp [hqr]), if_neg (by simp [hop]), if_pos hqd]
  · intro hqd hcnt
    unfold query_process
    rw [if_neg (by simp [hqr]), if_neg (by simp [hop]),
      if_neg (by simp [hqd]), if_pos hcnt]

/-- Witness for the amended C5 at concrete headers. -/
theorem query_header_rcode_witness :
    ((2 : Nat) ≠ 1 →
      query_process ⟨false, 0, 2, 0, 0, 0⟩ CLASS_IN 1 [7] dbEmpty =
        some ⟨RCODE_IMPL, false, none⟩) ∧
    ((1 : Nat) = 1 → ((0 : Nat) ≠ 0 ∨ (0 : Nat) ≠ 0 ∨ (1 : Nat) ≠ 0) →
      query_process ⟨false, 0, 1, 0, 0, 1⟩ CLASS_IN 1 [7] dbEmpty =
        some ⟨RCODE_FORMAT, false, none⟩) :=
  ⟨(query_header_rcode ⟨false, 0, 2, 0, 0, 0⟩ CLASS_IN 1 [7] dbEmpty
      rfl rfl).1,
   (query_header_rcode ⟨false, 0, 1, 0, 0, 1⟩ CLASS_IN 1 [7] dbEmpty
      rfl rfl).2⟩

/-- C10 counterexample: a well-formed QCLASS=ANY query of type AXFR *is*
refused (RCODE REFUSED), although its class is ANY -- so it is not true
that only classes other than IN and ANY receive REFUSED, nor that a
QCLASS=ANY query is never refused. -/
theorem query_class_any_counterexample :
    query_process ⟨false, 0, 1, 0, 0, 0⟩ CLASS_ANY TYPE_AXFR [] dbEmpty =
      some ⟨RCODE_REFUSE, false, none⟩ ∧ CLASS_ANY = 255 := by
  exact ⟨rfl, rfl⟩

/-- C10 as amended: a QCLASS=ANY query passes the class check and is
resolved exactly like a CLASS IN query with the AA bit cleared (every
answered ANY-class response has AA clear); the class check refuses
exactly the classes other than IN and ANY; and apart from the type-based
refusals (AXFR/IXFR, refused for every class) an ANY-class query is
never refused. -/
theorem query_class_any_amended (hdr : QHeader) (qtype : Nat)
    (qname : List Nat) (db : DbM)
    (hqr : hdr.qr = false) (hop : hdr.opcode = OPCODE_QUERY)
    (hqd : hdr.qdcount = 1) (han : hdr.ancount = 0) (hns : hdr.nscount = 0)
    (har : hdr.arcount = 0) :
    (∀ qclass, qclass ≠ CLASS_IN → qclass ≠ CLASS_ANY →
      query_process hdr qclass qtype qname db =
        some ⟨RCODE_REFUSE, false, none⟩) ∧
    (query_process hdr CLASS_ANY qtype qname db =
      (query_process hdr CLASS_IN qtype qname db).map clearAA) ∧
    (qtype ≠ TYPE_AXFR → qtype ≠ TYPE_IXFR →
      ∀ r, query_process hdr CLASS_ANY qtype qname db = some r →
        r.rcode ≠ RCODE_REFUSE) ∧
    (∀ r, query_process hdr CLASS_ANY qtype qname db = some r →
      r.aa = false) := by
  have hhdr : ∀ qc, query_process hdr qc qtype qname db =
      (if qc ≠ CLASS_IN ∧ qc ≠ CLASS_ANY then
        some ⟨RCODE_REFUSE, false, none⟩
      else if qtype = TYPE_AXFR ∨ qtype = TYPE_IXFR then
        some ⟨RCODE_REFUSE, false, none⟩
      else if qtype = TYPE_MAILA ∨ qtype = TYPE_MAILB then
        some ⟨RCODE_IMPL, false, none⟩
      else some (query_lookup db qc qtype qname)) := by
    intro qc
    unfold query_process
    rw [if_neg (by simp [hqr]), if_neg (by simp [hop]),
      if_neg (by simp [hqd]), if_neg (by simp [han, hns, har])]
  have hmap : query_process hdr CLASS_ANY qtype qname db =
      (query_process hdr CLASS_IN qtype qname db).map clearAA := by
    rw [hhdr, hhdr]
    rw [if_neg (show ¬(CLASS_ANY ≠ CLASS_IN ∧ CLASS_ANY ≠ CLASS_ANY) by
        simp [CLASS_IN, CLASS_ANY]),
      if_neg (show ¬(CLASS_IN ≠ CLASS_IN ∧ CLASS_IN ≠ CLASS_ANY) by
        simp [CLASS_IN, CLASS_ANY])]
    by_cases hax : qtype = TYPE_AXFR ∨ qtype = TYPE_IXFR
    · rw [if_pos hax, if_pos hax]
      rfl
    · rw [if_neg hax, if_neg hax]
      by_cases hma : qtype = TYPE_MAILA ∨ qtype = TYPE_MAILB
      · rw [if_pos hma, if_pos hma]
        rfl
      · rw [if_neg hma, if_neg hma]
        rw [query_lookup_any]
        rfl
  refine ⟨?_, hmap, ?_, ?_⟩
  · intro qc h1 h2
    rw [hhdr, if_pos ⟨h1, h2⟩]
  · intro hax hix r hr
    rw [hhdr] at hr
    rw [if_neg (show ¬(CLASS_ANY ≠ CLASS_IN ∧ CLASS_ANY ≠ CLASS_ANY) by
        simp [CLASS_IN, CLASS_ANY]),
      if_neg (show ¬(qtype = TYPE_AXFR ∨ qtype = TYPE_IXFR) by
        simp [hax, hix])] at hr
    by_cases hma : qtype = TYPE_MAILA ∨ qtype = TYPE_MAILB
    · rw [if_pos hma] at hr
      obtain rfl : (⟨RCODE_IMPL, false, none⟩ : QResp) = r := by
        injection hr
      decide
    · rw [if_neg hma] at hr
      obtain rfl : query_lookup db CLASS_ANY qtype qname = r := by
        injection hr
      exact query_lookup_no_refuse db CLASS_ANY qtype qname
  · intro r hr
    rw [hmap] at hr
    cases hin : query_process hdr CLASS_IN qtype qname db with
    | none => rw [hin] at hr; cases hr
    | some r2 =>
      rw [hin] at hr
      obtain rfl : clearAA r2 = r := by injection hr
      rfl

/-- Witness for the amended C10 at a concrete query: class 2 (CH) is
refused; an ANY-class A query over the empty database resolves exactly
like IN with AA cleared and is not refused. -/
theorem query_class_any_amended_witness :
    ((2 : Nat) ≠ CLASS_IN → (2 : Nat) ≠ CLASS_ANY →
      query_process ⟨false, 0, 1, 0, 0, 0⟩ 2 1 [7] dbEmpty =
        some ⟨RCODE_REFUSE, false, none⟩) ∧
    (query_process ⟨false, 0, 1, 0, 0, 0⟩ CLASS_ANY 1 [7] dbEmpty =
      (query_process ⟨false, 0, 1, 0, 0, 0⟩ CLASS_IN 1 [7] dbEmpty).map
        clearAA) ∧
    ((1 : Nat) ≠ TYPE_AXFR → (1 : Nat) ≠ TYPE_IXFR →
      ∀ r, query_process ⟨false, 0, 1, 0, 0, 0⟩ CLASS_ANY 1 [7] dbEmpty =
        some r → r.rcode ≠ RCODE_REFUSE) :=
  ⟨(query_class_any_amended ⟨false, 0, 1, 0, 0, 0⟩ 1 [7] dbEmpty
      rfl rfl rfl rfl rfl rfl).1 2,
   (query_class_any_amended ⟨false, 0, 1, 0, 0, 0⟩ 1 [7] dbEmpty
      rfl rfl rfl rfl rfl rfl).2.1,
   (query_class_any_amended ⟨false, 0, 1, 0, 0, 0⟩ 1 [7] dbEmpty
      rfl rfl rfl rfl rfl rfl).2.2.1⟩


/-! ### The control channel (remote.c) -/

/-- Outcome of `get_zone_arg` inside `do_reload`. -/
inductive ZoneArgOut | noArg | parseFail | notConfigured | found
deriving DecidableEq

/-- Outcome of the checks inside `do_addzone`. -/
inductive AddzOut | noArg2 | patternMissing | parseFail | zonelistFail | added
deriving DecidableEq

/-- Outcome of the checks inside `do_delzone`. -/
inductive DelzOut | parseFail | notPresent | partOfConfig | deleted
deriving DecidableEq

/-- A control command with the outcome of its handler's checks (which
depend on external state: options, zone list, argument text) attached. -/
inductive RCmd
  | stop
  | logReopen
  | reload (z : ZoneArgOut)
  | verbosity (numOk : Bool)
  | status
  | stats (enabled : Bool)
  | statsNoreset (enabled : Bool)
  | addzone (o : AddzOut)
  | delzone (o : DelzOut)
  | unknown
deriving DecidableEq

/-- `execute_cmd` (remote.c): the exact reply text written to the control
connection.  `ver` and `vb` are the version and verbosity strings of
`do_status`, `arg` is the argument text echoed into error messages.
`stats`/`stats_noreset` with statistics compiled in queue the reply until
after a reload and write nothing immediately (modelled as the empty
immediate reply). -/
def executeCmdReply (ver vb arg : String) : RCmd → String
  | .stop => "ok\n"
  | .logReopen => "ok\n"
  | .reload z =>
    match z with
    | .noArg => "ok\n"
    | .found => "ok\n"
    | .parseFail => "error cannot parse zone name '" ++ arg ++ "'\n"
    | .notConfigured => "error zone " ++ arg ++ " not configured\n"
  | .verbosity true => "ok\n"
  | .verbosity false =>
    "error in verbosity number syntax: " ++ arg ++ "\n"
  | .status => "version: " ++ ver ++ "\n" ++ "verbosity: " ++ vb ++ "\n"
  | .stats true => ""
  | .stats false => "error no stats enabled at compile time\n"
  | .statsNoreset true => ""
  | .statsNoreset false => "error no stats enabled at compile time\n"
  | .addzone o =>
    match o with
    | .noArg2 => "error could not find next argument after " ++ arg ++ "\n"
    | .patternMissing => "error pattern does not exist\n"
    | .parseFail => "error cannot parse zone name\n"
    | .zonelistFail => "error could not add zonelist entry\n"
    | .added => "ok\n"
  | .delzone o =>
    match o with
    | .parseFail => "error cannot parse zone name\n"
    | .notPresent => "warning zone " ++ arg ++ " not present\n" ++ "ok\n"
    | .partOfConfig => "error zone defined in nsd.conf, cannot delete it\n"
    | .deleted => "ok\n"
  | .unknown => "error unknown command '" ++ arg ++ "'\n"

/-- Whether the handler reached its success path. -/
def cmdSucceeds : RCmd → Bool
  | .stop => true
  | .logReopen => true
  | .reload z =>
    match z with
    | .noArg => true
    | .found => true
    | _ => false
  | .verbosity numOk => numOk
  | .status => true
  | .stats e => e
  | .statsNoreset e => e
  | .addzone o =>
    match o with
    | .added => true
    | _ => false
  | .delzone o =>
    match o with
    | .deleted => true
    | .notPresent => true
    | _ => false
  | .unknown => false

/-- The successful commands whose reply is not the bare `ok` line:
`status` prints version/verbosity lines, queued `stats` defers its
output, and `delzone` of a non-present zone prints a warning first. -/
def multilineOrDeferred : RCmd → Bool
  | .status => true
  | .stats true => true
  | .statsNoreset true => true
  | .delzone .notPresent => true
  | _ => false

/-- Reply-text check: `s` starts with the text `p`. -/
def startsWithStr (p s : String) : Bool := p.data.isPrefixOf s.data

theorem startsWithStr_append {p l : String} (t : String)
    (h : startsWithStr p l = true) : startsWithStr p (l ++ t) = true := by
  unfold startsWithStr at h ⊢
  rw [String.data_append]
  rw [List.isPrefixOf_iff_prefix] at h ⊢
  exact h.trans (List.prefix_append l.data t.data)

theorem head_ne_imp_ne {a b : String} (h : a.data.head? ≠ b.data.head?) :
    a ≠ b := fun he => h (by rw [he])

theorem startsWithStr_false_of_head {p s : String} {c1 c2 : Char}
    (hp : p.data.head? = some c1) (hs : s.data.head? = some c2)
    (h : c1 ≠ c2) : startsWithStr p s = false := by
  unfold startsWithStr
  cases hpd : p.data with
  | nil => rw [hpd] at hp; cases hp
  | cons x xs =>
    cases hsd : s.data with
    | nil => rfl
    | cons y ys =>
      rw [hpd] at hp
      rw [hsd] at hs
      simp at hp hs
      subst hp
      subst hs
      rw [List.isPrefixOf_cons₂]
      simp [h]

theorem data_head_append (l t : String) {c : Char}
    (h : l.data.head? = some c) : (l ++ t).data.head? = some c := by
  rw [String.data_append, List.head?_append, h]
  rfl


theorem err_reply_ne_ok (lit arg tail : String)
    (hhead : lit.data.head? = some 'e') :
    ((lit ++ arg) ++ tail) ≠ "ok\n" :=
  head_ne_imp_ne (by
    rw [data_head_append _ _ (data_head_append _ _ hhead)]
    decide)

theorem err_reply_starts (lit arg tail : String)
    (hsw : startsWithStr "error " lit = true) :
    startsWithStr "error " ((lit ++ arg) ++ tail) = true :=
  startsWithStr_append _ (startsWithStr_append _ hsw)

/-- C8 counterexample: the `status` command succeeds, yet its reply is
the version/verbosity report, which neither starts with the exact text
`ok` plus newline nor with `error `. -/
theorem remote_reply_counterexample :
    cmdSucceeds .status = true ∧
    executeCmdReply "4.0.0" "1" "" .status =
      "version: 4.0.0\nverbosity: 1\n" ∧
    startsWithStr "ok\n" (executeCmdReply "4.0.0" "1" "" .status) = false ∧
    startsWithStr "error " (executeCmdReply "4.0.0" "1" "" .status) = false := by
  refine ⟨rfl, rfl, ?_, ?_⟩ <;> decide

/-- C8 as amended: the reply is exactly `ok` plus newline iff the command
succeeded and is not one of the special successes (`status` reports
version and verbosity lines, `stats`/`stats_noreset` with statistics
compiled in defer their output past the reload, and `delzone` of a
non-present zone prefixes a warning line before its `ok`); the reply
starts with `error ` iff the command failed. -/
theorem remote_reply_amended (ver vb arg : String) (c : RCmd) :
    (executeCmdReply ver vb arg c = "ok\n" ↔
      cmdSucceeds c = true ∧ multilineOrDeferred c = false) ∧
    (startsWithStr "error " (executeCmdReply ver vb arg c) = true ↔
      cmdSucceeds c = false) := by
  cases c with
  | stop => exact ⟨by simp only [executeCmdReply]; decide,
      by simp only [executeCmdReply]; decide⟩
  | logReopen => exact ⟨by simp only [executeCmdReply]; decide,
      by simp only [executeCmdReply]; decide⟩
  | reload z =>
    cases z with
    | noArg => exact ⟨by simp only [executeCmdReply]; decide,
        by simp only [executeCmdReply]; decide⟩
    | found => exact ⟨by simp only [executeCmdReply]; decide,
        by simp only [executeCmdReply]; decide⟩
    | parseFail =>
      exact ⟨iff_of_false (err_reply_ne_ok _ arg _ (by decide)) (by decide),
        iff_of_true (err_reply_starts _ arg _ (by decide)) (by decide)⟩
    | notConfigured =>
      exact ⟨iff_of_false (err_reply_ne_ok _ arg _ (by decide)) (by decide),
        iff_of_true (err_reply_starts _ arg _ (by decide)) (by decide)⟩
  | verbosity numOk =>
    cases numOk with
    | true => exact ⟨by simp only [executeCmdReply]; decide,
        by simp only [executeCmdReply]; decide⟩
    | false =>
      exact ⟨iff_of_false (err_reply_ne_ok _ arg _ (by decide)) (by decide),
        iff_of_true (err_reply_starts _ arg _ (by decide)) (by decide)⟩
  | status =>
    simp only [executeCmdReply]
    have hv : ((((("version: " ++ ver) ++ "\n") ++ "verbosity: ") ++ vb)
        ++ "\n").data.head? = some 'v' :=
      data_head_append _ _ (data_head_append _ _ (data_head_append _ _
        (data_head_append _ _ (data_head_append _ _ (by decide)))))
    refine ⟨iff_of_false (head_ne_imp_ne (by rw [hv]; decide)) (by decide),
      iff_of_false ?_ (by decide)⟩
    rw [@startsWithStr_false_of_head "error " _ 'e' 'v' (by decide) hv
      (by decide)]
    decide
  | stats e =>
    cases e with
    | true => exact ⟨by simp only [executeCmdReply]; decide,
        by simp only [executeCmdReply]; decide⟩
    | false => exact ⟨by simp only [executeCmdReply]; decide,
        by simp only [executeCmdReply]; decide⟩
  | statsNoreset e =>
    cases e with
    | true => exact ⟨by simp only [executeCmdReply]; decide,
        by simp only [executeCmdReply]; decide⟩
    | false => exact ⟨by simp only [executeCmdReply]; decide,
        by simp only [executeCmdReply]; decide⟩
  | addzone o =>
    cases o with
    | noArg2 =>
      exact ⟨iff_of_false (err_reply_ne_ok _ arg _ (by decide)) (by decide),
        iff_of_true (err_reply_starts _ arg _ (by decide)) (by decide)⟩
    | patternMissing => exact ⟨by simp only [executeCmdReply]; decide,
        by simp only [executeCmdReply]; decide⟩
    | parseFail => exact ⟨by simp only [executeCmdReply]; decide,
        by simp only [executeCmdReply]; decide⟩
    | zonelistFail => exact ⟨by simp only [executeCmdReply]; decide,
        by simp only [executeCmdReply]; decide⟩
    | added => exact ⟨by simp only [executeCmdReply]; decide,
        by simp only [executeCmdReply]; decide⟩
  | delzone o =>
    cases o with
    | parseFail => exact ⟨by simp only [executeCmdReply]; decide,
        by simp only [executeCmdReply]; decide⟩
    | partOfConfig => exact ⟨by simp only [executeCmdReply]; decide,
        by simp only [executeCmdReply]; decide⟩
    | deleted => exact ⟨by simp only [executeCmdReply]; decide,
        by simp only [executeCmdReply]; decide⟩
    | notPresent =>
      simp only [executeCmdReply]
      have hw : ((("warning zone " ++ arg) ++ " not present\n")
          ++ "ok\n").data.head? = some 'w' :=
        data_head_append _ _ (data_head_append _ _ (data_head_append _ _
          (by decide)))
      refine ⟨iff_of_false (head_ne_imp_ne (by rw [hw]; decide)) (by decide),
        iff_of_false ?_ (by decide)⟩
      rw [@startsWithStr_false_of_head "error " _ 'e' 'w' (by decide) hw
        (by decide)]
      decide
  | unknown =>
    exact ⟨iff_of_false (err_reply_ne_ok _ arg _ (by decide)) (by decide),
      iff_of_true (err_reply_starts _ arg _ (by decide)) (by decide)⟩

end NsdModel
